import Mathlib

/-!
Verification of the litetask task tracker (Go) against its natural-language
specification.  The Go source is shallowly embedded: the SQLite database
becomes an explicit `DB` state, every store method becomes a pure function
`DB → result × DB`, and the HTTP handler layer becomes functions from the
parsed request data to a response value plus a new state.  Machine integers
(`int64`) are modelled as `Int`; byte strings as `List Nat` with values
below 256; fallible operations return `Except`.
-/

set_option maxRecDepth 4000

namespace LiteTask

/-! ## Data model — src/internal/store/store.go

`Task`, `Project`, `User` mirror the Go structs.  `created_at` timestamps are
carried as `Int` Unix seconds supplied by the caller (`now` arguments stand
for SQLite's `CURRENT_TIMESTAMP`).  Row ordering of query results is the
insertion order of the underlying lists; the `ORDER BY created_at DESC`
clauses only permute results and are not modelled.
-/

structure Task where
  id : Int
  title : String
  status : String
  comment : String
  projectId : Int
  createdAt : Int
  deriving Repr, DecidableEq

structure Project where
  id : Int
  name : String
  createdAt : Int
  deriving Repr, DecidableEq

structure User where
  id : Int
  email : String
  password : String
  role : String
  createdAt : Int
  deriving Repr, DecidableEq

/-- The persistent state owned by `store.Store`: the four SQLite tables plus
the AUTOINCREMENT counters of the three tables with generated ids.
`userProjects` is the `user_projects` join table of `(user_id, project_id)`
rows. -/
structure DB where
  tasks : List Task
  projects : List Project
  users : List User
  userProjects : List (Int × Int)
  nextTaskId : Int
  nextProjectId : Int
  nextUserId : Int
  deriving Repr, DecidableEq

/-- `allowedStatuses` map of store.go (keys only; the values are empty
structs). -/
def allowedStatuses : List String := ["new", "in_progress", "done"]

/-- `allowedRoles` map of store.go (keys only). -/
def allowedRoles : List String := ["admin", "user", "blocked"]

/-- `DefaultProjectID` constant of store.go. -/
def DefaultProjectID : Int := 1

/-- The sentinel errors surfaced by the store layer.  `noRows` stands for
`sql.ErrNoRows`; `uniqueViolation` for a SQLite UNIQUE/PRIMARY KEY
constraint error; `projectNotFound` for the `fmt.Errorf("project not found")`
value; the `username*` values for the distinct error strings of
config.go's `SetUsernameOnce`/`validateUsername`. -/
inductive StoreErr where
  | invalidStatus
  | invalidRole
  | lastAdmin
  | noRows
  | projectNotFound
  | uniqueViolation
  | passwordTooShort
  | usernameRequired
  | usernameLength
  | usernameHasAt
  | usernameBadChar
  | usernameAlreadySet
  deriving Repr, DecidableEq

/-- `SELECT ... FROM tasks WHERE id = ?` (first — and with unique ids only —
matching row). -/
def findTask (db : DB) (id : Int) : Option Task :=
  db.tasks.find? (fun t => t.id == id)

/-- `SELECT ... FROM users WHERE id = ?`. -/
def findUser (db : DB) (id : Int) : Option User :=
  db.users.find? (fun u => u.id == id)

/-- `Store.ProjectExists`: `SELECT EXISTS(SELECT 1 FROM projects WHERE id = ?)`. -/
def ProjectExists (db : DB) (id : Int) : Bool :=
  db.projects.any (fun p => p.id == id)

/-- `Store.GetTask`: the row for `id`, or `sql.ErrNoRows`. -/
def GetTask (db : DB) (id : Int) : Except StoreErr Task :=
  match findTask db id with
  | some t => .ok t
  | none => .error .noRows

/-- `Store.SetTaskStatus` (store.go lines 128–150): reject a status outside
`allowedStatuses` with `ErrInvalidStatus` before touching the database;
`UPDATE tasks SET status = ? WHERE id = ?`; zero affected rows yields
`sql.ErrNoRows`; otherwise re-read and return the updated row. -/
def SetTaskStatus (db : DB) (id : Int) (status : String) :
    Except StoreErr Task × DB :=
  if status ∈ allowedStatuses then
    match findTask db id with
    | none => (.error .noRows, db)
    | some t =>
        (.ok { t with status := status },
         { db with tasks := db.tasks.map (fun x => if x.id == id then { x with status := status } else x) })
  else
    (.error .invalidStatus, db)

/-- `Store.SetTaskComment`: `UPDATE tasks SET comment = ? WHERE id = ?`,
`sql.ErrNoRows` when the task is absent, then re-read. -/
def SetTaskComment (db : DB) (id : Int) (comment : String) :
    Except StoreErr Task × DB :=
  match findTask db id with
  | none => (.error .noRows, db)
  | some t =>
      (.ok { t with comment := comment },
       { db with tasks := db.tasks.map (fun x => if x.id == id then { x with comment := comment } else x) })

/-- `Store.DeleteTask`: `DELETE FROM tasks WHERE id = ?`; zero affected rows
yields `sql.ErrNoRows`. -/
def DeleteTask (db : DB) (id : Int) : Except StoreErr Unit × DB :=
  if db.tasks.any (fun t => t.id == id) then
    (.ok (), { db with tasks := db.tasks.filter (fun t => t.id != id) })
  else
    (.error .noRows, db)

/-- `Store.InsertTask`: fail with the "project not found" error when the
project is absent; insert with status forced to `'new'`; re-read and return
the stored row. -/
def InsertTask (db : DB) (title comment : String) (projectID : Int)
    (now : Int) : Except StoreErr Task × DB :=
  if ProjectExists db projectID then
    (.ok ⟨db.nextTaskId, title, "new", comment, projectID, now⟩,
     { db with tasks := db.tasks ++ [⟨db.nextTaskId, title, "new", comment, projectID, now⟩],
               nextTaskId := db.nextTaskId + 1 })
  else
    (.error .projectNotFound, db)

/-- `Store.CreateProject`: `INSERT INTO projects (name) VALUES (?)`; the
UNIQUE constraint on `name` rejects duplicates; re-read and return the row. -/
def CreateProject (db : DB) (name : String) (now : Int) :
    Except StoreErr Project × DB :=
  if db.projects.any (fun p => p.name == name) then
    (.error .uniqueViolation, db)
  else
    (.ok ⟨db.nextProjectId, name, now⟩,
     { db with projects := db.projects ++ [⟨db.nextProjectId, name, now⟩],
               nextProjectId := db.nextProjectId + 1 })

/-- `Store.DeleteProject` (store.go lines 234–255): inside one transaction,
`DELETE FROM tasks WHERE project_id = ?` then `DELETE FROM projects WHERE
id = ?`; when the project row is absent the function returns `sql.ErrNoRows`
before `tx.Commit()`, so the deferred rollback restores the task rows —
the net effect modelled here is all-or-nothing. -/
def DeleteProject (db : DB) (id : Int) : Except StoreErr Unit × DB :=
  if ProjectExists db id then
    (.ok (), { db with
                projects := db.projects.filter (fun p => p.id != id),
                tasks := db.tasks.filter (fun t => t.projectId != id) })
  else
    (.error .noRows, db)

/-- `Store.countAdmins` (store.go lines 352–356):
`SELECT COUNT(*) FROM users WHERE role = 'admin'`. -/
def countAdmins (db : DB) : Nat :=
  db.users.countP (fun u => u.role == "admin")

/-- `Store.GetUserByID`: the row for `id`, or `sql.ErrNoRows`. -/
def GetUserByID (db : DB) (id : Int) : Except StoreErr User :=
  match findUser db id with
  | some u => .ok u
  | none => .error .noRows

/-- `Store.GetUserProjects`:
`SELECT project_id FROM user_projects WHERE user_id = ? ORDER BY project_id`.
The join-table rows are kept sorted by `(user_id, project_id)` insertion;
the `ORDER BY` is reflected in the well-formedness predicate used where it
matters rather than re-sorting here. -/
def GetUserProjects (db : DB) (userID : Int) : List Int :=
  (db.userProjects.filter (fun g => g.1 == userID)).map (fun g => g.2)

/-- `Store.SetUserProjects`: in one transaction, verify every referenced
project exists (abort with the "project not found" error otherwise), then
`DELETE FROM user_projects WHERE user_id = ?` and re-insert one row per id.
A duplicate id in the input would violate the `(user_id, project_id)`
primary key and roll the transaction back, modelled by the `Nodup` guard. -/
def SetUserProjects (db : DB) (userID : Int) (projectIDs : List Int) :
    Except StoreErr Unit × DB :=
  if projectIDs.all (fun pid => ProjectExists db pid) then
    if projectIDs.Nodup then
      (.ok (), { db with userProjects :=
                  db.userProjects.filter (fun g => g.1 != userID)
                    ++ projectIDs.map (fun pid => (userID, pid)) })
    else
      (.error .uniqueViolation, db)
  else
    (.error .projectNotFound, db)

/-- `Store.CreateUser` (store.go lines 257–278): insert the user (UNIQUE
constraint on `email`), re-read the row, then grant the default project via
`SetUserProjects` — a failure of that grant is only logged, never
propagated.  bcrypt runs outside the model: `hash` is the (salted,
non-deterministic) output of `bcrypt.GenerateFromPassword`, supplied as an
oracle input. -/
def CreateUser (db : DB) (email hash role : String) (now : Int) :
    Except StoreErr User × DB :=
  if db.users.any (fun u => u.email == email) then
    (.error .uniqueViolation, db)
  else
    (.ok ⟨db.nextUserId, email, hash, role, now⟩,
     (SetUserProjects
       { db with users := db.users ++ [⟨db.nextUserId, email, hash, role, now⟩],
                 nextUserId := db.nextUserId + 1 }
       db.nextUserId [DefaultProjectID]).2)

/-- `Store.UpdateUserRole` (store.go lines 320–350): reject a role outside
`allowedRoles` with `ErrInvalidRole`; read the current role
(`sql.ErrNoRows` when the user is absent); when a currently-admin user would
become non-admin and `countAdmins ≤ 1`, fail with `ErrLastAdmin`; otherwise
update the row and return it re-read. -/
def UpdateUserRole (db : DB) (id : Int) (role : String) :
    Except StoreErr User × DB :=
  if role ∈ allowedRoles then
    match findUser db id with
    | none => (.error .noRows, db)
    | some u =>
        if u.role == "admin" && role != "admin" && decide (countAdmins db ≤ 1) then
          (.error .lastAdmin, db)
        else
          (.ok { u with role := role },
           { db with users := db.users.map (fun x => if x.id == id then { x with role := role } else x) })
  else
    (.error .invalidRole, db)

/-- `Store.UpdateUserPassword`: passwords shorter than 6 bytes are rejected;
otherwise the stored hash is replaced (`hash` is again the bcrypt oracle
output) and the row is returned re-read. -/
def UpdateUserPassword (db : DB) (id : Int) (password hash : String) :
    Except StoreErr User × DB :=
  if password.utf8ByteSize < 6 then
    (.error .passwordTooShort, db)
  else
    match findUser db id with
    | none => (.error .noRows, db)
    | some u =>
        (.ok { u with password := hash },
         { db with users := db.users.map (fun x => if x.id == id then { x with password := hash } else x) })

/-- `Store.FetchTasks` (store.go lines 428–471): compose the three optional
WHERE conditions — `project_id = ?` when `projectID > 0`, `project_id IN
(allowed)` when the allowed set is non-empty, `status = ?` when a status
filter is given — and return the matching rows. -/
def FetchTasks (db : DB) (projectID : Int) (status : String)
    (allowed : List Int) : List Task :=
  db.tasks.filter (fun t =>
    (if 0 < projectID then t.projectId == projectID else true)
    && (if allowed.isEmpty then true else allowed.contains t.projectId)
    && (if status == "" then true else t.status == status))

/-! ## The store's mutation step relation

`StoreOp` enumerates every mutating operation exposed by `store.Store`
(store.go); `applyOp` is the state part of the corresponding function.
Read-only queries (`GetTask`, `FetchTasks`, …) do not change the state and
need no case. -/

inductive StoreOp where
  | insertTask (title comment : String) (projectID : Int) (now : Int)
  | setTaskStatus (id : Int) (status : String)
  | setTaskComment (id : Int) (comment : String)
  | deleteTask (id : Int)
  | createProject (name : String) (now : Int)
  | deleteProject (id : Int)
  | createUser (email hash role : String) (now : Int)
  | updateUserRole (id : Int) (role : String)
  | updateUserPassword (id : Int) (password hash : String)
  | setUserProjects (userID : Int) (projectIDs : List Int)
  deriving Repr

/-- State transition of one store operation (the `× DB` component of the
operation's embedding). -/
def applyOp (db : DB) : StoreOp → DB
  | .insertTask title comment projectID now =>
      (InsertTask db title comment projectID now).2
  | .setTaskStatus id status => (SetTaskStatus db id status).2
  | .setTaskComment id comment => (SetTaskComment db id comment).2
  | .deleteTask id => (DeleteTask db id).2
  | .createProject name now => (CreateProject db name now).2
  | .deleteProject id => (DeleteProject db id).2
  | .createUser email hash role now => (CreateUser db email hash role now).2
  | .updateUserRole id role => (UpdateUserRole db id role).2
  | .updateUserPassword id password hash =>
      (UpdateUserPassword db id password hash).2
  | .setUserProjects userID projectIDs =>
      (SetUserProjects db userID projectIDs).2

/-- At least one user row carries the `admin` role. -/
def hasAdmin (db : DB) : Prop :=
  ∃ u ∈ db.users, u.role = "admin"

/-- The structural invariants SQLite enforces on the three id-generating
tables: primary-key uniqueness of the generated ids and the AUTOINCREMENT
guarantee that every stored id is below the next one to be handed out. -/
structure WF (db : DB) : Prop where
  usersNodup : (db.users.map (fun u => u.id)).Nodup
  usersLt : ∀ u ∈ db.users, u.id < db.nextUserId
  tasksNodup : (db.tasks.map (fun t => t.id)).Nodup
  tasksLt : ∀ t ∈ db.tasks, t.id < db.nextTaskId
  projectsNodup : (db.projects.map (fun p => p.id)).Nodup
  projectsLt : ∀ p ∈ db.projects, p.id < db.nextProjectId

/-! ## Auxiliary list lemmas -/

/-- `find?` by a key commutes with a key-preserving row update. -/
theorem find?_map_key {α : Type} (key : α → Int) (id : Int) (f : α → α)
    (hf : ∀ x, key (f x) = key x) (l : List α) :
    (l.map f).find? (fun x => key x == id) =
      (l.find? (fun x => key x == id)).map f := by
  induction l with
  | nil => rfl
  | cons x xs ih =>
      by_cases h : key x == id
      · simp [List.find?, hf, h]
      · simp only [List.map_cons, List.find?]
        rw [hf]
        simp only [h]
        simpa using ih

/-- A `find?` hit is a member satisfying the predicate. -/
theorem find?_key_mem {α : Type} {key : α → Int} {id : Int} {l : List α}
    {x : α} (h : l.find? (fun y => key y == id) = some x) :
    x ∈ l ∧ key x = id := by
  refine ⟨List.mem_of_find?_eq_some h, ?_⟩
  have := List.find?_some h
  simpa using this

/-- In a list whose keys are `Nodup`, a member sharing the key of a `find?`
hit is that hit. -/
theorem eq_of_key_nodup {α : Type} {key : α → Int} {l : List α}
    (hn : (l.map key).Nodup) {x y : α} (hx : x ∈ l) (hy : y ∈ l)
    (hxy : key x = key y) : x = y :=
  List.inj_on_of_nodup_map hn hx hy hxy

/-- Two admins among rows with `Nodup` ids give an admin with any prescribed
id excluded. -/
theorem exists_other_admin {l : List User}
    (hn : (l.map (fun u => u.id)).Nodup)
    (h2 : 2 ≤ l.countP (fun u => u.role == "admin")) (id : Int) :
    ∃ v ∈ l, v.role = "admin" ∧ v.id ≠ id := by
  have hlen : 2 ≤ (l.filter (fun u => u.role == "admin")).length := by
    simpa [List.countP_eq_length_filter] using h2
  have hsub : (l.filter (fun u => u.role == "admin")).Sublist l :=
    List.filter_sublist l
  have hnf : ((l.filter (fun u => u.role == "admin")).map (fun u => u.id)).Nodup :=
    (hsub.map (fun u => u.id)).nodup hn
  match hm : l.filter (fun u => u.role == "admin") with
  | [] => simp [hm] at hlen
  | [v] => simp [hm] at hlen
  | v1 :: v2 :: rest =>
      rw [hm] at hnf hsub
      have hv1 : v1 ∈ l := hsub.subset (by simp)
      have hv2 : v2 ∈ l := hsub.subset (by simp)
      have hm1 : v1 ∈ l.filter (fun u => u.role == "admin") := by rw [hm]; simp
      have hm2 : v2 ∈ l.filter (fun u => u.role == "admin") := by rw [hm]; simp
      have hr1 : v1.role = "admin" := by
        have := List.of_mem_filter hm1
        exact eq_of_beq this
      have hr2 : v2.role = "admin" := by
        have := List.of_mem_filter hm2
        exact eq_of_beq this
      have hne : v1.id ≠ v2.id := by
        simp only [List.map_cons, List.nodup_cons, List.mem_cons] at hnf
        exact fun h => hnf.1 (Or.inl h)
      by_cases h1 : v1.id = id
      · exact ⟨v2, hv2, hr2, fun h => hne (h1.trans h.symm)⟩
      · exact ⟨v1, hv1, hr1, h1⟩

/-- Appending a row whose key equals the running bound keeps keys `Nodup`. -/
theorem nodup_append_key {α : Type} (key : α → Int) (l : List α) (a : α)
    (bound : Int) (hn : (l.map key).Nodup) (hlt : ∀ x ∈ l, key x < bound)
    (ha : key a = bound) : ((l ++ [a]).map key).Nodup := by
  simp only [List.map_append, List.map_cons, List.map_nil]
  rw [List.nodup_append]
  refine ⟨hn, by simp, ?_⟩
  intro b hb hb'
  simp only [List.mem_singleton] at hb'
  obtain ⟨x, hx, hxk⟩ := List.mem_map.1 hb
  have := hlt x hx
  omega

/-- A key-preserving row update keeps the key list unchanged. -/
theorem map_key_update {α : Type} (key : α → Int) (f : α → α)
    (hf : ∀ x, key (f x) = key x) (l : List α) :
    (l.map f).map key = l.map key := by
  rw [List.map_map]
  exact List.map_congr_left (fun a _ => hf a)

/-- Filtering keeps keys `Nodup`. -/
theorem nodup_filter_key {α : Type} (key : α → Int) (p : α → Bool)
    {l : List α} (hn : (l.map key).Nodup) : ((l.filter p).map key).Nodup :=
  ((List.filter_sublist l).map key).nodup hn

/-- `SetUserProjects` only rewrites the join table. -/
theorem SetUserProjects_fields (db : DB) (uid : Int) (pids : List Int) :
    (SetUserProjects db uid pids).2.users = db.users ∧
    (SetUserProjects db uid pids).2.tasks = db.tasks ∧
    (SetUserProjects db uid pids).2.projects = db.projects ∧
    (SetUserProjects db uid pids).2.nextUserId = db.nextUserId ∧
    (SetUserProjects db uid pids).2.nextTaskId = db.nextTaskId ∧
    (SetUserProjects db uid pids).2.nextProjectId = db.nextProjectId := by
  unfold SetUserProjects
  split
  · split <;> simp
  · simp

/-- A key-preserving row update keeps keys `Nodup`. -/
theorem nodup_map_update_key {α : Type} (key : α → Int) (f : α → α)
    (hf : ∀ x, key (f x) = key x) {l : List α} (hn : (l.map key).Nodup) :
    ((l.map f).map key).Nodup := by
  rw [map_key_update key f hf]
  exact hn

/-- A key-preserving row update keeps key bounds. -/
theorem lt_map_update_key {α : Type} (key : α → Int) (f : α → α)
    (hf : ∀ x, key (f x) = key x) {l : List α} {bound : Int}
    (hl : ∀ x ∈ l, key x < bound) : ∀ y ∈ l.map f, key y < bound := by
  intro y hy
  obtain ⟨x, hx, rfl⟩ := List.mem_map.1 hy
  rw [hf]
  exact hl x hx

/-- Appending a row at the running bound keeps keys below the bumped bound. -/
theorem lt_map_append_key {α : Type} (key : α → Int) {l : List α} {a : α}
    {bound : Int} (hl : ∀ x ∈ l, key x < bound) (ha : key a = bound) :
    ∀ y ∈ l ++ [a], key y < bound + 1 := by
  intro y hy
  rcases List.mem_append.1 hy with h | h
  · have := hl y h; omega
  · simp only [List.mem_singleton] at h
    subst h
    omega

/-- Filtering keeps key bounds. -/
theorem lt_filter_key {α : Type} (key : α → Int) (p : α → Bool) {l : List α}
    {bound : Int} (hl : ∀ x ∈ l, key x < bound) :
    ∀ y ∈ l.filter p, key y < bound :=
  fun y hy => hl y (List.mem_of_mem_filter hy)

/-- Every store operation preserves the primary-key/AUTOINCREMENT
invariants. -/
theorem WF_applyOp (db : DB) (op : StoreOp) (hwf : WF db) :
    WF (applyOp db op) := by
  obtain ⟨hun, hul, htn, htl, hpn, hpl⟩ := hwf
  cases op with
  | insertTask title comment pid now =>
      simp only [applyOp]
      unfold InsertTask
      split
      · exact ⟨hun, hul,
          nodup_append_key (fun t => t.id) db.tasks
            ⟨db.nextTaskId, title, "new", comment, pid, now⟩ db.nextTaskId htn htl rfl,
          lt_map_append_key (fun t : Task => t.id) htl rfl, hpn, hpl⟩
      · exact ⟨hun, hul, htn, htl, hpn, hpl⟩
  | setTaskStatus id status =>
      have hf : ∀ x : Task,
          (if x.id == id then { x with status := status } else x).id = x.id :=
        fun x => by split <;> rfl
      simp only [applyOp]
      unfold SetTaskStatus
      split
      · split
        · exact ⟨hun, hul, htn, htl, hpn, hpl⟩
        · exact ⟨hun, hul, nodup_map_update_key _ _ hf htn,
            lt_map_update_key _ _ hf htl, hpn, hpl⟩
      · exact ⟨hun, hul, htn, htl, hpn, hpl⟩
  | setTaskComment id comment =>
      have hf : ∀ x : Task,
          (if x.id == id then { x with comment := comment } else x).id = x.id :=
        fun x => by split <;> rfl
      simp only [applyOp]
      unfold SetTaskComment
      split
      · exact ⟨hun, hul, htn, htl, hpn, hpl⟩
      · exact ⟨hun, hul, nodup_map_update_key _ _ hf htn,
          lt_map_update_key _ _ hf htl, hpn, hpl⟩
  | deleteTask id =>
      simp only [applyOp]
      unfold DeleteTask
      split
      · exact ⟨hun, hul, nodup_filter_key _ _ htn, lt_filter_key _ _ htl, hpn, hpl⟩
      · exact ⟨hun, hul, htn, htl, hpn, hpl⟩
  | createProject name now =>
      simp only [applyOp]
      unfold CreateProject
      split
      · exact ⟨hun, hul, htn, htl, hpn, hpl⟩
      · exact ⟨hun, hul, htn, htl,
          nodup_append_key (fun p => p.id) db.projects
            ⟨db.nextProjectId, name, now⟩ db.nextProjectId hpn hpl rfl,
          lt_map_append_key (fun p : Project => p.id) hpl rfl⟩
  | deleteProject id =>
      simp only [applyOp]
      unfold DeleteProject
      split
      · exact ⟨hun, hul, nodup_filter_key _ _ htn, lt_filter_key _ _ htl,
          nodup_filter_key _ _ hpn, lt_filter_key _ _ hpl⟩
      · exact ⟨hun, hul, htn, htl, hpn, hpl⟩
  | createUser email hash role now =>
      simp only [applyOp]
      unfold CreateUser
      split
      · exact ⟨hun, hul, htn, htl, hpn, hpl⟩
      · show WF (SetUserProjects
          { db with users := db.users ++ [⟨db.nextUserId, email, hash, role, now⟩],
                    nextUserId := db.nextUserId + 1 }
          db.nextUserId [DefaultProjectID]).2
        obtain ⟨h1, h2, h3, h4, h5, h6⟩ := SetUserProjects_fields
          { db with users := db.users ++ [⟨db.nextUserId, email, hash, role, now⟩],
                    nextUserId := db.nextUserId + 1 }
          db.nextUserId [DefaultProjectID]
        refine ⟨?_, ?_, ?_, ?_, ?_, ?_⟩
        · rw [h1]
          exact nodup_append_key (fun u => u.id) db.users
            ⟨db.nextUserId, email, hash, role, now⟩ db.nextUserId hun hul rfl
        · rw [h1, h4]
          exact lt_map_append_key (fun u : User => u.id) hul rfl
        · rw [h2]; exact htn
        · rw [h2, h5]; exact htl
        · rw [h3]; exact hpn
        · rw [h3, h6]; exact hpl
  | updateUserRole id role =>
      have hf : ∀ x : User,
          (if x.id == id then { x with role := role } else x).id = x.id :=
        fun x => by split <;> rfl
      simp only [applyOp]
      unfold UpdateUserRole
      split
      · split
        · exact ⟨hun, hul, htn, htl, hpn, hpl⟩
        · split
          · exact ⟨hun, hul, htn, htl, hpn, hpl⟩
          · exact ⟨nodup_map_update_key _ _ hf hun,
              lt_map_update_key _ _ hf hul, htn, htl, hpn, hpl⟩
      · exact ⟨hun, hul, htn, htl, hpn, hpl⟩
  | updateUserPassword id password hash =>
      have hf : ∀ x : User,
          (if x.id == id then { x with password := hash } else x).id = x.id :=
        fun x => by split <;> rfl
      simp only [applyOp]
      unfold UpdateUserPassword
      split
      · exact ⟨hun, hul, htn, htl, hpn, hpl⟩
      · split
        · exact ⟨hun, hul, htn, htl, hpn, hpl⟩
        · exact ⟨nodup_map_update_key _ _ hf hun,
            lt_map_update_key _ _ hf hul, htn, htl, hpn, hpl⟩
  | setUserProjects uid pids =>
      show WF (SetUserProjects db uid pids).2
      obtain ⟨h1, h2, h3, h4, h5, h6⟩ := SetUserProjects_fields db uid pids
      refine ⟨?_, ?_, ?_, ?_, ?_, ?_⟩
      · rw [h1]; exact hun
      · rw [h1, h4]; exact hul
      · rw [h2]; exact htn
      · rw [h2, h5]; exact htl
      · rw [h3]; exact hpn
      · rw [h3, h6]; exact hpl

/-- Every store operation keeps at least one admin around (given the
primary-key invariants). -/
theorem hasAdmin_applyOp (db : DB) (op : StoreOp) (hwf : WF db)
    (h : hasAdmin db) : hasAdmin (applyOp db op) := by
  obtain ⟨w, hw, hwrole⟩ := h
  cases op with
  | insertTask title comment pid now =>
      simp only [applyOp]
      unfold InsertTask
      split
      · exact ⟨w, hw, hwrole⟩
      · exact ⟨w, hw, hwrole⟩
  | setTaskStatus id status =>
      simp only [applyOp]
      unfold SetTaskStatus
      split
      · split
        · exact ⟨w, hw, hwrole⟩
        · exact ⟨w, hw, hwrole⟩
      · exact ⟨w, hw, hwrole⟩
  | setTaskComment id comment =>
      simp only [applyOp]
      unfold SetTaskComment
      split
      · exact ⟨w, hw, hwrole⟩
      · exact ⟨w, hw, hwrole⟩
  | deleteTask id =>
      simp only [applyOp]
      unfold DeleteTask
      split
      · exact ⟨w, hw, hwrole⟩
      · exact ⟨w, hw, hwrole⟩
  | createProject name now =>
      simp only [applyOp]
      unfold CreateProject
      split
      · exact ⟨w, hw, hwrole⟩
      · exact ⟨w, hw, hwrole⟩
  | deleteProject id =>
      simp only [applyOp]
      unfold DeleteProject
      split
      · exact ⟨w, hw, hwrole⟩
      · exact ⟨w, hw, hwrole⟩
  | createUser email hash role now =>
      simp only [applyOp]
      unfold CreateUser
      split
      · exact ⟨w, hw, hwrole⟩
      · show hasAdmin (SetUserProjects
          { db with users := db.users ++ [⟨db.nextUserId, email, hash, role, now⟩],
                    nextUserId := db.nextUserId + 1 }
          db.nextUserId [DefaultProjectID]).2
        refine ⟨w, ?_, hwrole⟩
        rw [(SetUserProjects_fields _ _ _).1]
        exact List.mem_append_left _ hw
  | updateUserRole id role =>
      simp only [applyOp]
      unfold UpdateUserRole
      split
      · split
        · exact ⟨w, hw, hwrole⟩
        · rename_i u hfind
          split
          · exact ⟨w, hw, hwrole⟩
          · rename_i hguard
            by_cases hradmin : role = "admin"
            · obtain ⟨hu_mem, hu_id⟩ := find?_key_mem hfind
              refine ⟨{ u with role := role }, ?_, hradmin⟩
              exact List.mem_map.2 ⟨u, hu_mem, by simp [hu_id]⟩
            · by_cases huadmin : u.role = "admin"
              · have hcount : 2 ≤ countAdmins db := by
                  by_contra hlt
                  push_neg at hlt
                  apply hguard
                  have : countAdmins db ≤ 1 := by omega
                  simp [huadmin, hradmin, this]
                obtain ⟨v, hv, hvrole, hvid⟩ :=
                  exists_other_admin hwf.usersNodup hcount id
                refine ⟨v, ?_, hvrole⟩
                exact List.mem_map.2 ⟨v, hv, by simp [hvid]⟩
              · have hwid : w.id ≠ id := by
                  intro hid
                  obtain ⟨hu_mem, hu_id⟩ := find?_key_mem hfind
                  have : w = u := eq_of_key_nodup hwf.usersNodup hw hu_mem
                    (by rw [hid, hu_id])
                  exact huadmin (this ▸ hwrole)
                refine ⟨w, ?_, hwrole⟩
                exact List.mem_map.2 ⟨w, hw, by simp [hwid]⟩
      · exact ⟨w, hw, hwrole⟩
  | updateUserPassword id password hash =>
      simp only [applyOp]
      unfold UpdateUserPassword
      split
      · exact ⟨w, hw, hwrole⟩
      · split
        · exact ⟨w, hw, hwrole⟩
        · refine ⟨if w.id == id then { w with password := hash } else w, ?_, ?_⟩
          · exact List.mem_map.2 ⟨w, hw, rfl⟩
          · split <;> exact hwrole
  | setUserProjects uid pids =>
      show hasAdmin (SetUserProjects db uid pids).2
      refine ⟨w, ?_, hwrole⟩
      rw [(SetUserProjects_fields _ _ _).1]
      exact hw

/-! ## Claim theorems over the store layer -/

/-- C3: in every state reachable (by any sequence of store operations) from
a well-formed state with at least one admin, an admin still exists;
`UpdateUserRole` fails with `ErrLastAdmin` exactly when the target is an
admin, the new (valid) role is not `admin`, and the target is the only
admin; the same demotion succeeds once a second admin exists; and — by the
quantification over every `StoreOp` — no other data-store operation removes
or demotes an admin. -/
theorem admin_invariant (db : DB) (hwf : WF db) :
    (hasAdmin db → ∀ ops : List StoreOp, hasAdmin (ops.foldl applyOp db)) ∧
    (∀ id u role, findUser db id = some u → u.role = "admin" →
      role ∈ allowedRoles → role ≠ "admin" → countAdmins db = 1 →
      UpdateUserRole db id role = (.error .lastAdmin, db)) ∧
    (∀ id u role, findUser db id = some u → u.role = "admin" →
      role ∈ allowedRoles → role ≠ "admin" → 2 ≤ countAdmins db →
      (UpdateUserRole db id role).1 = .ok { u with role := role }) := by
  refine ⟨?_, ?_, ?_⟩
  · intro h ops
    induction ops generalizing db with
    | nil => exact h
    | cons op ops ih =>
        exact ih (applyOp db op) (WF_applyOp db op hwf)
          (hasAdmin_applyOp db op hwf h)
  · intro id u role hfind hu hrole hne hcount
    have hguard : (u.role == "admin" && role != "admin"
        && decide (countAdmins db ≤ 1)) = true := by
      simp [hu, hne, hcount]
    simp [UpdateUserRole, hfind, hrole, hguard]
  · intro id u role hfind hu hrole hne hcount
    have hguard : (u.role == "admin" && role != "admin"
        && decide (countAdmins db ≤ 1)) = false := by
      simp only [Bool.and_eq_false_iff]
      right
      simp only [decide_eq_false_iff_not]
      omega
    simp [UpdateUserRole, hfind, hrole, hguard]

/-- Witness for C3 at concrete states: a single-admin demotion is refused,
the same demotion goes through once a second admin exists, and an admin
persists through a batch of operations. -/
theorem admin_invariant_witness :
    (let db1 : DB := ⟨[], [], [⟨1, "a@x", "h", "admin", 0⟩], [], 1, 1, 2⟩
     UpdateUserRole db1 1 "user" = (.error .lastAdmin, db1)) ∧
    (let db2 : DB := ⟨[], [], [⟨1, "a@x", "h", "admin", 0⟩,
        ⟨2, "b@x", "h", "admin", 0⟩], [], 1, 1, 3⟩
     (UpdateUserRole db2 1 "user").1 =
       .ok ⟨1, "a@x", "h", "user", 0⟩) ∧
    (let db1 : DB := ⟨[], [], [⟨1, "a@x", "h", "admin", 0⟩], [], 1, 1, 2⟩
     hasAdmin (([StoreOp.createProject "p" 5,
        StoreOp.createUser "c@x" "h" "user" 6] : List StoreOp).foldl applyOp db1)) := by
  have hwf1 : WF (⟨[], [], [⟨1, "a@x", "h", "admin", 0⟩], [], 1, 1, 2⟩ : DB) := by
    constructor <;> decide
  have hwf2 : WF (⟨[], [], [⟨1, "a@x", "h", "admin", 0⟩,
      ⟨2, "b@x", "h", "admin", 0⟩], [], 1, 1, 3⟩ : DB) := by
    constructor <;> decide
  refine ⟨?_, ?_, ?_⟩
  · exact (admin_invariant _ hwf1).2.1 1 ⟨1, "a@x", "h", "admin", 0⟩ "user"
      (by decide) rfl (by decide) (by decide) (by decide)
  · exact (admin_invariant _ hwf2).2.2 1 ⟨1, "a@x", "h", "admin", 0⟩ "user"
      (by decide) rfl (by decide) (by decide) (by decide)
  · exact (admin_invariant _ hwf1).1 ⟨⟨1, "a@x", "h", "admin", 0⟩, by decide, rfl⟩ _

/-- C4: deleting an existing project removes, as one transaction, the
project row and exactly the tasks of that project (fetching any of those
tasks afterwards gives `sql.ErrNoRows`); deleting an absent project fails
with `sql.ErrNoRows` and leaves the state — tasks included — unchanged. -/
theorem deleteProject_contract (db : DB) (id : Int) (hwf : WF db) :
    (ProjectExists db id = true →
      (DeleteProject db id).1 = .ok () ∧
      (DeleteProject db id).2.projects = db.projects.filter (fun p => p.id != id) ∧
      (DeleteProject db id).2.tasks = db.tasks.filter (fun t => t.projectId != id) ∧
      ∀ t ∈ db.tasks, t.projectId = id →
        GetTask (DeleteProject db id).2 t.id = .error .noRows) ∧
    (ProjectExists db id = false → DeleteProject db id = (.error .noRows, db)) := by
  constructor
  · intro hex
    unfold DeleteProject
    rw [if_pos hex]
    refine ⟨rfl, rfl, rfl, ?_⟩
    intro t ht htp
    unfold GetTask findTask
    have : (db.tasks.filter (fun t => t.projectId != id)).find?
        (fun x => x.id == t.id) = none := by
      rw [List.find?_eq_none]
      intro x hx hbeq
      have hxmem : x ∈ db.tasks := List.mem_of_mem_filter hx
      have hxp := List.of_mem_filter hx
      have hxt : x = t := eq_of_key_nodup hwf.tasksNodup hxmem ht (by
        simpa using hbeq)
      rw [hxt] at hxp
      simp [htp] at hxp
    simp only [this]
  · intro hex
    unfold DeleteProject
    rw [if_neg (by simp [hex])]

/-- Witness for C4: a two-task project cascades away and its tasks become
unfetchable; deleting a missing project reports `noRows` and changes
nothing. -/
theorem deleteProject_contract_witness :
    (let db : DB := ⟨[⟨1, "T1", "new", "", 7, 0⟩, ⟨2, "T2", "new", "", 7, 0⟩,
        ⟨3, "T3", "new", "", 8, 0⟩],
      [⟨7, "P", 0⟩, ⟨8, "Q", 0⟩], [], [], 4, 9, 1⟩
     (DeleteProject db 7).1 = .ok () ∧
     (DeleteProject db 7).2.tasks = [⟨3, "T3", "new", "", 8, 0⟩] ∧
     GetTask (DeleteProject db 7).2 1 = .error .noRows) ∧
    (let db : DB := ⟨[⟨1, "T1", "new", "", 7, 0⟩], [⟨7, "P", 0⟩], [], [], 2, 8, 1⟩
     DeleteProject db 99 = (.error .noRows, db)) := by
  have hwf : WF (⟨[⟨1, "T1", "new", "", 7, 0⟩, ⟨2, "T2", "new", "", 7, 0⟩,
      ⟨3, "T3", "new", "", 8, 0⟩],
    [⟨7, "P", 0⟩, ⟨8, "Q", 0⟩], [], [], 4, 9, 1⟩ : DB) := by
    constructor <;> decide
  have hwf2 : WF (⟨[⟨1, "T1", "new", "", 7, 0⟩], [⟨7, "P", 0⟩], [], [], 2, 8, 1⟩ : DB) := by
    constructor <;> decide
  refine ⟨⟨?_, ?_, ?_⟩, ?_⟩
  · exact ((deleteProject_contract _ 7 hwf).1 (by decide)).1
  · have := ((deleteProject_contract _ 7 hwf).1 (by decide)).2.2.1
    rw [this]
    decide
  · exact ((deleteProject_contract _ 7 hwf).1 (by decide)).2.2.2
      ⟨1, "T1", "new", "", 7, 0⟩ (by decide) rfl
  · exact (deleteProject_contract _ 99 hwf2).2 (by decide)

/-- After a successful status update the task re-reads with the new
status. -/
theorem findTask_setTaskStatus (db : DB) (id : Int) (status : String)
    (hmem : status ∈ allowedStatuses) (t : Task)
    (hf : findTask db id = some t) :
    findTask (SetTaskStatus db id status).2 id =
      some { t with status := status } := by
  have hstate : (SetTaskStatus db id status).2 = { db with tasks := db.tasks.map (fun x => if x.id == id then { x with status := status } else x) } := by
    simp [SetTaskStatus, hmem, hf]
  rw [hstate]
  unfold findTask
  rw [find?_map_key (fun t : Task => t.id) id
      (fun x : Task => if x.id == id then { x with status := status } else x)
      (fun x => by dsimp only; split <;> rfl)]
  unfold findTask at hf
  have ht : (t.id == id) = true := by simpa using List.find?_some hf
  have ht2 : t.id = id := by simpa using ht
  rw [hf]
  simp [ht2]

/-- C5: `SetTaskStatus` yields `ErrInvalidStatus` exactly for a status
outside the fixed three-value set; with a valid status it yields
`sql.ErrNoRows` when the task is absent; on an existing task any of the
three values is stored regardless of the current one — in particular
`done` followed by `new` both succeed. -/
theorem setTaskStatus_contract (db : DB) (id : Int) (status : String) :
    ((SetTaskStatus db id status).1 = .error .invalidStatus ↔
      status ∉ allowedStatuses) ∧
    (status ∈ allowedStatuses → findTask db id = none →
      SetTaskStatus db id status = (.error .noRows, db)) ∧
    (∀ t, findTask db id = some t → status ∈ allowedStatuses →
      (SetTaskStatus db id status).1 = .ok { t with status := status }) ∧
    (∀ t, findTask db id = some t →
      (SetTaskStatus db id "done").1 = .ok { t with status := "done" } ∧
      (SetTaskStatus (SetTaskStatus db id "done").2 id "new").1 =
        .ok { t with status := "new" }) := by
  refine ⟨?_, ?_, ?_, ?_⟩
  · constructor
    · intro h hmem
      unfold SetTaskStatus at h
      rw [if_pos hmem] at h
      cases hf : findTask db id <;> rw [hf] at h <;> simp at h
    · intro hmem
      unfold SetTaskStatus
      rw [if_neg hmem]
  · intro hmem hf
    unfold SetTaskStatus
    rw [if_pos hmem, hf]
  · intro t hf hmem
    unfold SetTaskStatus
    rw [if_pos hmem, hf]
  · intro t hf
    have hmemd : "done" ∈ allowedStatuses := by decide
    have hmemn : "new" ∈ allowedStatuses := by decide
    have hfind2 : findTask (SetTaskStatus db id "done").2 id =
        some { t with status := "done" } :=
      findTask_setTaskStatus db id "done" hmemd t hf
    constructor
    · simp [SetTaskStatus, hmemd, hf]
    · generalize hdb2 : (SetTaskStatus db id "done").2 = db2 at hfind2 ⊢
      simp [SetTaskStatus, hmemn, hfind2]

/-- Witness for C5: on a one-task state, `archived` is rejected as invalid,
a valid status on a missing task reports `noRows`, and `done` then `new`
both succeed. -/
theorem setTaskStatus_contract_witness :
    (let db : DB := ⟨[⟨1, "T", "new", "", 1, 0⟩], [⟨1, "P", 0⟩], [], [], 2, 2, 1⟩
     (SetTaskStatus db 1 "archived").1 = .error .invalidStatus ∧
     SetTaskStatus db 99 "done" = (.error .noRows, db) ∧
     (SetTaskStatus db 1 "done").1 = .ok ⟨1, "T", "done", "", 1, 0⟩ ∧
     (SetTaskStatus (SetTaskStatus db 1 "done").2 1 "new").1 =
       .ok ⟨1, "T", "new", "", 1, 0⟩) := by
  refine ⟨?_, ?_, ?_, ?_⟩
  · exact (setTaskStatus_contract _ 1 "archived").1.2 (by decide)
  · exact (setTaskStatus_contract _ 99 "done").2.1 (by decide) (by decide)
  · exact ((setTaskStatus_contract _ 1 "done").2.2.2 ⟨1, "T", "new", "", 1, 0⟩
      (by decide)).1
  · exact ((setTaskStatus_contract _ 1 "done").2.2.2 ⟨1, "T", "new", "", 1, 0⟩
      (by decide)).2

/-- C10: an invalid status short-circuits `SetTaskStatus` before any
database access — the state (every table) is returned unchanged and the
result is `ErrInvalidStatus` for every task id, existing or not, never
`sql.ErrNoRows`. -/
theorem setTaskStatus_invalid_early (db : DB) (id : Int) (status : String)
    (h : status ∉ allowedStatuses) :
    SetTaskStatus db id status = (.error .invalidStatus, db) ∧
    (SetTaskStatus db id status).1 ≠ .error .noRows := by
  have : SetTaskStatus db id status = (.error .invalidStatus, db) := by
    unfold SetTaskStatus
    rw [if_neg h]
  exact ⟨this, by rw [this]; simp⟩

/-- Witness for C10: `archived` on an id that matches no task gives
`invalidStatus` (not `noRows`) and leaves the state untouched. -/
theorem setTaskStatus_invalid_early_witness :
    (let db : DB := ⟨[⟨1, "T", "new", "", 1, 0⟩], [⟨1, "P", 0⟩], [], [], 2, 2, 1⟩
     SetTaskStatus db 42 "archived" = (.error .invalidStatus, db) ∧
     (SetTaskStatus db 42 "archived").1 ≠ .error .noRows) :=
  setTaskStatus_invalid_early _ 42 "archived" (by decide)

/-! ## HTTP handler layer — the `httpapi` package

Handlers are modelled on their parsed inputs: routing, JSON decoding and
query-string parsing happen before the modelled logic, and a malformed
`projectId` already answered 400 before `listTasks` proper runs.  `HResp`
enumerates the HTTP outcomes the handlers write. -/

inductive HResp (α : Type) where
  | ok (val : α)
  | noContent
  | badRequest
  | forbidden
  | notFound
  | unauthorized
  | serverError
  deriving Repr, DecidableEq

/-- `authUser` of the `httpapi` package: the authenticated user, the grant
set loaded for non-admins, and the restriction flag. -/
structure AuthUser where
  user : User
  allowed : List Int
  isRestricted : Bool
  deriving Repr, DecidableEq

/-- `authUser.canAccess` (bot.go lines 1070–1076): unrestricted callers pass;
restricted callers need the project in their grant set. -/
def canAccess (a : AuthUser) (projectID : Int) : Bool :=
  if !a.isRestricted then true
  else a.allowed.contains projectID

/-- The `authUser` value `requireUser` (bot.go lines 332–359) installs in the
request context: admins are unrestricted with no grant lookup; everyone else
gets their `user_projects` rows and the restricted flag. -/
def buildAuth (db : DB) (u : User) : AuthUser :=
  if u.role == "admin" then ⟨u, [], false⟩
  else ⟨u, GetUserProjects db u.id, true⟩

/-- `Server.listTasks` (bot.go lines 716–742): `projectID` is 0 when the
query carries no `projectId`; a restricted caller is refused whenever no
project is named or the named project is outside their scope; otherwise
`FetchTasks` runs with the caller's allowed set. -/
def listTasks (db : DB) (auth : AuthUser) (pidParam : Option Int) :
    HResp (List Task) :=
  if auth.isRestricted
      && (pidParam.getD 0 == 0 || !canAccess auth (pidParam.getD 0)) then
    .forbidden
  else
    .ok (FetchTasks db (pidParam.getD 0) "" auth.allowed)

/-- `Server.deleteProjectHandler` (bot.go lines 695–714): the default
project is refused with 400 before anything else; then non-admins get 403;
then `DeleteProject` runs, translating `sql.ErrNoRows` to 404. -/
def deleteProjectHandler (db : DB) (auth : AuthUser) (id : Int) :
    HResp Unit × DB :=
  if id == DefaultProjectID then (.badRequest, db)
  else if auth.user.role != "admin" then (.forbidden, db)
  else
    match DeleteProject db id with
    | (.ok _, db2) => (.noContent, db2)
    | (.error .noRows, db2) => (.notFound, db2)
    | (.error _, db2) => (.serverError, db2)

/-- Deleting some other project keeps a project row whose id is different. -/
theorem mem_projects_deleteProject {db : DB} {p : Project}
    (hp : p ∈ db.projects) {id : Int} (hne : p.id ≠ id) :
    p ∈ (DeleteProject db id).2.projects := by
  unfold DeleteProject
  split
  · exact List.mem_filter.2 ⟨hp, by simp [hne]⟩
  · exact hp

/-- C1 (amended): for a restricted (non-admin, non-blocked) user whose grant
set is `{1, 2}`, `listTasks` refuses `projectId = 3` with `Forbidden`,
returns exactly the tasks of project 1 for `projectId = 1`, and — contrary
to the claim as stated — also refuses a request with no explicit project id
with `Forbidden` (restricted callers must name a project). -/
theorem listTasks_restricted_scope (db : DB) (u : User)
    (hadmin : u.role ≠ "admin") (hblocked : u.role ≠ "blocked")
    (hgrants : GetUserProjects db u.id = [1, 2]) :
    listTasks db (buildAuth db u) (some 3) = .forbidden ∧
    listTasks db (buildAuth db u) (some 1) =
      .ok (db.tasks.filter (fun t => t.projectId == 1)) ∧
    listTasks db (buildAuth db u) none = .forbidden := by
  have hb : (u.role == "admin") = false := by simp [hadmin]
  have hauth : buildAuth db u = ⟨u, [1, 2], true⟩ := by
    unfold buildAuth
    rw [hb]
    simp [hgrants]
  refine ⟨?_, ?_, ?_⟩
  · rw [hauth]
    simp [listTasks, canAccess]
  · rw [hauth]
    have hfetch : FetchTasks db 1 "" [1, 2] =
        db.tasks.filter (fun t => t.projectId == 1) := by
      unfold FetchTasks
      apply List.filter_congr
      intro t _
      by_cases h : t.projectId = 1 <;> simp [h]
    simp [listTasks, canAccess, hfetch]
  · rw [hauth]
    simp [listTasks]

/-- Witness for C1's amended statement on a concrete three-project state. -/
theorem listTasks_restricted_scope_witness :
    (let db : DB := ⟨[⟨1, "A", "new", "", 1, 0⟩, ⟨2, "B", "new", "", 2, 0⟩,
        ⟨3, "C", "new", "", 3, 0⟩],
      [⟨1, "P1", 0⟩, ⟨2, "P2", 0⟩, ⟨3, "P3", 0⟩],
      [⟨10, "u@x", "h", "user", 0⟩], [(10, 1), (10, 2)], 4, 4, 11⟩
     listTasks db (buildAuth db ⟨10, "u@x", "h", "user", 0⟩) (some 3) = .forbidden ∧
     listTasks db (buildAuth db ⟨10, "u@x", "h", "user", 0⟩) (some 1) =
       .ok [⟨1, "A", "new", "", 1, 0⟩] ∧
     listTasks db (buildAuth db ⟨10, "u@x", "h", "user", 0⟩) none = .forbidden) := by
  have h := listTasks_restricted_scope
    ⟨[⟨1, "A", "new", "", 1, 0⟩, ⟨2, "B", "new", "", 2, 0⟩,
        ⟨3, "C", "new", "", 3, 0⟩],
      [⟨1, "P1", 0⟩, ⟨2, "P2", 0⟩, ⟨3, "P3", 0⟩],
      [⟨10, "u@x", "h", "user", 0⟩], [(10, 1), (10, 2)], 4, 4, 11⟩
    ⟨10, "u@x", "h", "user", 0⟩ (by decide) (by decide) (by decide)
  exact ⟨h.1, by rw [h.2.1]; decide, h.2.2⟩

/-- Counterexample to C1 as stated: on the same concrete state the request
with no explicit project id is answered `Forbidden`, not with the tasks of
projects 1 and 2. -/
theorem listTasks_noProject_counterexample :
    (let db : DB := ⟨[⟨1, "A", "new", "", 1, 0⟩, ⟨2, "B", "new", "", 2, 0⟩,
        ⟨3, "C", "new", "", 3, 0⟩],
      [⟨1, "P1", 0⟩, ⟨2, "P2", 0⟩, ⟨3, "P3", 0⟩],
      [⟨10, "u@x", "h", "user", 0⟩], [(10, 1), (10, 2)], 4, 4, 11⟩
     listTasks db (buildAuth db ⟨10, "u@x", "h", "user", 0⟩) none = .forbidden ∧
     listTasks db (buildAuth db ⟨10, "u@x", "h", "user", 0⟩) none ≠
       .ok [⟨1, "A", "new", "", 1, 0⟩, ⟨2, "B", "new", "", 2, 0⟩]) := by
  decide

/-- C7 (amended): the default-project guard fires first, so a request for
the default project id is answered `400 Bad Request` for every caller —
admin or not — while every other project id is refused with `Forbidden` for
non-admin callers; and no `deleteProjectHandler` call ever removes a project
row carrying the default id. -/
theorem deleteProject_admin_only (db : DB) (auth : AuthUser) (id : Int) :
    (id = DefaultProjectID → deleteProjectHandler db auth id = (.badRequest, db)) ∧
    (id ≠ DefaultProjectID → auth.user.role ≠ "admin" →
      deleteProjectHandler db auth id = (.forbidden, db)) ∧
    (∀ p ∈ db.projects, p.id = DefaultProjectID →
      p ∈ (deleteProjectHandler db auth id).2.projects) := by
  refine ⟨?_, ?_, ?_⟩
  · intro h
    unfold deleteProjectHandler
    rw [if_pos (by simp [h])]
  · intro h hrole
    unfold deleteProjectHandler
    rw [if_neg (by simp [h]), if_pos (by simp [hrole])]
  · intro p hp hpid
    unfold deleteProjectHandler
    by_cases hid : id = DefaultProjectID
    · rw [if_pos (by simp [hid])]
      exact hp
    · rw [if_neg (by simp [hid])]
      have hne : p.id ≠ id := by rw [hpid]; exact fun h => hid h.symm
      have hkeep := mem_projects_deleteProject hp hne
      split
      · exact hp
      · split <;> rename_i heq <;> rw [heq] at hkeep <;> exact hkeep

/-- Witness for C7's amended statement: a non-admin is refused on project 2,
everyone gets 400 on the default project, and the default project survives
an admin's delete of project 2. -/
theorem deleteProject_admin_only_witness :
    (let db : DB := ⟨[], [⟨1, "Общий", 0⟩, ⟨2, "P2", 0⟩], [], [], 1, 3, 1⟩
     deleteProjectHandler db ⟨⟨10, "u@x", "h", "user", 0⟩, [2], true⟩ 1 =
       (.badRequest, db) ∧
     deleteProjectHandler db ⟨⟨10, "u@x", "h", "user", 0⟩, [2], true⟩ 2 =
       (.forbidden, db) ∧
     (⟨1, "Общий", 0⟩ : Project) ∈
       (deleteProjectHandler db ⟨⟨11, "a@x", "h", "admin", 0⟩, [], false⟩ 2).2.projects) := by
  refine ⟨?_, ?_, ?_⟩
  · exact (deleteProject_admin_only _ _ 1).1 rfl
  · exact (deleteProject_admin_only _ _ 2).2.1 (by decide) (by decide)
  · exact (deleteProject_admin_only _ _ 2).2.2 ⟨1, "Общий", 0⟩ (by decide) rfl

/-- Counterexample to C7 as stated: a non-admin caller's delete request for
the default project id is answered `400 Bad Request`, not `Forbidden`. -/
theorem deleteProject_nonadmin_default_counterexample :
    (let db : DB := ⟨[], [⟨1, "Общий", 0⟩], [], [], 1, 2, 1⟩
     (deleteProjectHandler db ⟨⟨10, "u@x", "h", "user", 0⟩, [1], true⟩ 1).1 =
       .badRequest ∧
     (deleteProjectHandler db ⟨⟨10, "u@x", "h", "user", 0⟩, [1], true⟩ 1).1 ≠
       .forbidden) := by
  decide

/-! ## Username set-once — src/internal/config/config.go's store version

That file carries the store revision with a `username` column
(`COALESCE(username, '')` reads `NULL` as `""`, so an empty string models the
unset state).  Only the user rows matter to `SetUsernameOnce`; `UserV2` is
that revision's user row restricted to the fields the operation touches. -/

structure UserV2 where
  id : Int
  email : String
  username : String
  role : String
  deriving Repr, DecidableEq

deriving instance DecidableEq for Except

/-- The whitespace set of `strings.TrimSpace` restricted to ASCII (the
Unicode additions NEL/NBSP never occur in the inputs considered here). -/
def isSpaceChar (c : Char) : Bool :=
  c == ' ' || c == '\t' || c == '\n' || c == Char.ofNat 11
    || c == Char.ofNat 12 || c == '\r'

/-- `strings.TrimSpace` on the character list: drop leading and trailing
whitespace. -/
def trimL (l : List Char) : List Char :=
  ((l.dropWhile isSpaceChar).reverse.dropWhile isSpaceChar).reverse

/-- `strings.TrimSpace`. -/
def trimSpace (s : String) : String := ⟨trimL s.data⟩

/-- `strings.ToLower` restricted to ASCII (usernames reaching the store are
validated to ASCII anyway). -/
def toLowerGo (s : String) : String :=
  ⟨s.data.map (fun c => if 'A' ≤ c && c ≤ 'Z' then Char.ofNat (c.toNat + 32) else c)⟩

/-- The character classes `validateUsername` admits. -/
def usernameCharOK (c : Char) : Bool :=
  ('a' ≤ c && c ≤ 'z') || ('0' ≤ c && c ≤ '9')
    || c == '_' || c == '-' || c == '.'

/-- `validateUsername` (config.go lines 1073–1090): 3–32 bytes, no `@`, only
lowercase letters, digits, `_`, `-`, `.`. -/
def validateUsername (username : String) : Except StoreErr Unit :=
  if username.utf8ByteSize < 3 || 32 < username.utf8ByteSize then
    .error .usernameLength
  else if username.data.contains '@' then
    .error .usernameHasAt
  else if !(username.data.all usernameCharOK) then
    .error .usernameBadChar
  else
    .ok ()

/-- The row change of the conditional
`UPDATE users SET username = ? WHERE id = ? AND (username IS NULL OR
username = '')`. -/
def applyUsername (id : Int) (n : String) (users : List UserV2) : List UserV2 :=
  users.map (fun u => if u.id == id && u.username == "" then { u with username := n } else u)

/-- `Store.SetUsernameOnce` (config.go lines 474–505): normalize to
lowercase and trim; reject an empty result, then validate; run the
conditional `UPDATE ... WHERE id = ? AND (username IS NULL OR username =
'')`; when no row was affected, distinguish a missing user (`sql.ErrNoRows`
from the re-read), an already-set username (`ErrUsernameSet`), and the
residual race branch (`sql.ErrNoRows`); otherwise return the row re-read. -/
def SetUsernameOnce (users : List UserV2) (id : Int) (username : String) :
    Except StoreErr UserV2 × List UserV2 :=
  if trimSpace (toLowerGo username) == "" then
    (.error .usernameRequired, users)
  else
    match validateUsername (trimSpace (toLowerGo username)) with
    | .error e => (.error e, users)
    | .ok _ =>
        if users.countP (fun u => u.id == id && u.username == "") == 0 then
          match users.find? (fun u => u.id == id) with
          | none => (.error .noRows, users)
          | some u =>
              if trimSpace u.username != "" then (.error .usernameAlreadySet, users)
              else (.error .noRows, users)
        else
          match (applyUsername id (trimSpace (toLowerGo username)) users).find? (fun u => u.id == id) with
          | some u => (.ok u, applyUsername id (trimSpace (toLowerGo username)) users)
          | none => (.error .noRows, applyUsername id (trimSpace (toLowerGo username)) users)

/-- Evaluation of `SetUsernameOnce` on the successful path. -/
theorem SetUsernameOnce_run_ok {users : List UserV2} {id : Int}
    {username : String}
    (h1 : (trimSpace (toLowerGo username) == "") = false)
    (h2 : validateUsername (trimSpace (toLowerGo username)) = .ok ())
    (h3 : (users.countP (fun u => u.id == id && u.username == "") == 0) = false)
    {v : UserV2}
    (h4 : (applyUsername id (trimSpace (toLowerGo username)) users).find?
      (fun u => u.id == id) = some v) :
    SetUsernameOnce users id username =
      (.ok v, applyUsername id (trimSpace (toLowerGo username)) users) := by
  unfold SetUsernameOnce
  split
  · rename_i hc
    rw [h1] at hc
    simp at hc
  · split
    · rename_i e heq
      rw [h2] at heq
      simp at heq
    · rw [if_neg (by simp [h3])]
      split
      · rename_i w heq
        rw [h4] at heq
        injection heq with hw
        rw [hw]
      · rename_i heq
        rw [h4] at heq
        simp at heq

/-- Evaluation of `SetUsernameOnce` when the username is already set. -/
theorem SetUsernameOnce_run_alreadySet {users : List UserV2} {id : Int}
    {username : String}
    (h1 : (trimSpace (toLowerGo username) == "") = false)
    (h2 : validateUsername (trimSpace (toLowerGo username)) = .ok ())
    (h3 : (users.countP (fun u => u.id == id && u.username == "") == 0) = true)
    {v : UserV2} (h4 : users.find? (fun u => u.id == id) = some v)
    (h5 : (trimSpace v.username != "") = true) :
    SetUsernameOnce users id username = (.error .usernameAlreadySet, users) := by
  unfold SetUsernameOnce
  split
  · rename_i hc
    rw [h1] at hc
    simp at hc
  · split
    · rename_i e heq
      rw [h2] at heq
      simp at heq
    · split
      · rename_i heq
        rw [h4] at heq
        simp at heq
      · rename_i w heq
        rw [h4] at heq
        injection heq with hw
        subst hw
        rw [if_pos h5]

/-- Evaluation of `SetUsernameOnce` on a value failing validation. -/
theorem SetUsernameOnce_run_invalid {users : List UserV2} {id : Int}
    {username : String} {e : StoreErr}
    (h1 : (trimSpace (toLowerGo username) == "") = false)
    (h2 : validateUsername (trimSpace (toLowerGo username)) = .error e) :
    SetUsernameOnce users id username = (.error e, users) := by
  unfold SetUsernameOnce
  split
  · rename_i hc
    rw [h1] at hc
    simp at hc
  · split
    · rename_i e2 heq
      rw [h2] at heq
      injection heq with he
      rw [he]
    · rename_i heq
      rw [h2] at heq
      simp at heq

/-- Evaluation of `SetUsernameOnce` on a value that normalizes to empty. -/
theorem SetUsernameOnce_run_required {users : List UserV2} {id : Int}
    {username : String}
    (h0 : (trimSpace (toLowerGo username) == "") = true) :
    SetUsernameOnce users id username = (.error .usernameRequired, users) := by
  unfold SetUsernameOnce
  rw [if_pos h0]

/-- A list whose head fails the predicate is untouched by `dropWhile`. -/
theorem dropWhile_eq_self_of_not {p : Char → Bool} {l : List Char}
    (h : ∀ c ∈ l, p c = false) : l.dropWhile p = l := by
  cases l with
  | nil => rfl
  | cons a l =>
      rw [List.dropWhile_cons]
      simp [h a (by simp)]

/-- Trimming a string with no whitespace is the identity. -/
theorem trimL_eq_self {l : List Char} (h : ∀ c ∈ l, isSpaceChar c = false) :
    trimL l = l := by
  unfold trimL
  rw [dropWhile_eq_self_of_not h,
    dropWhile_eq_self_of_not (fun c hc => h c (List.mem_reverse.1 hc)),
    List.reverse_reverse]

/-- The admitted username characters are never whitespace. -/
theorem usernameCharOK_not_space (c : Char) (h : usernameCharOK c = true) :
    isSpaceChar c = false := by
  by_contra hsp
  rw [Bool.not_eq_false] at hsp
  unfold isSpaceChar at hsp
  simp only [Bool.or_eq_true, beq_iff_eq] at hsp
  rcases hsp with ((((h1 | h1) | h1) | h1) | h1) | h1 <;> subst h1 <;>
    exact absurd h (by decide)

/-- A username that validated successfully has only admitted characters. -/
theorem validate_ok_chars {s : String} (h : validateUsername s = .ok ()) :
    ∀ c ∈ s.data, usernameCharOK c = true := by
  unfold validateUsername at h
  split at h
  · cases h
  · split at h
    · cases h
    · split at h
      · cases h
      · rename_i hall
        simp only [Bool.not_eq_true, Bool.not_eq_false'] at hall
        exact fun c hc => List.all_eq_true.1 hall c hc

/-- A validated username is already trimmed. -/
theorem trim_validated {s : String} (h : validateUsername s = .ok ()) :
    trimSpace s = s := by
  show String.mk (trimL s.data) = s
  rw [trimL_eq_self (fun c hc => usernameCharOK_not_space c (validate_ok_chars h c hc))]

/-- C9 (amended): for a user whose username is unset, the first
`SetUsernameOnce` with a value that normalizes (trim + lowercase) to a
non-empty, valid username succeeds and stores the normalized value; every
later call for that user with a valid value fails with `ErrUsernameSet` and
leaves the rows unchanged; a later call with an invalid or empty value also
leaves the rows unchanged but fails with the corresponding validation
error — validation runs before the already-set check, contrary to the claim
as stated. -/
theorem setUsernameOnce_contract (users : List UserV2) (id : Int) (u : UserV2)
    (hf : users.find? (fun x => x.id == id) = some u) (hempty : u.username = "")
    (name : String) (hne : trimSpace (toLowerGo name) ≠ "")
    (hval : validateUsername (trimSpace (toLowerGo name)) = .ok ()) :
    (SetUsernameOnce users id name).1 =
      .ok { u with username := trimSpace (toLowerGo name) } ∧
    (∀ name2, trimSpace (toLowerGo name2) ≠ "" →
      validateUsername (trimSpace (toLowerGo name2)) = .ok () →
      SetUsernameOnce (SetUsernameOnce users id name).2 id name2 =
        (.error .usernameAlreadySet, (SetUsernameOnce users id name).2)) ∧
    (∀ name2 e, trimSpace (toLowerGo name2) ≠ "" →
      validateUsername (trimSpace (toLowerGo name2)) = .error e →
      SetUsernameOnce (SetUsernameOnce users id name).2 id name2 =
        (.error e, (SetUsernameOnce users id name).2)) ∧
    (∀ name2, trimSpace (toLowerGo name2) = "" →
      SetUsernameOnce (SetUsernameOnce users id name).2 id name2 =
        (.error .usernameRequired, (SetUsernameOnce users id name).2)) := by
  obtain ⟨humem, huid⟩ := @find?_key_mem UserV2 (fun x : UserV2 => x.id) id users u hf
  have hcond1 : (trimSpace (toLowerGo name) == "") = false := by simp [hne]
  have hcnt : 0 < users.countP (fun v => v.id == id && v.username == "") :=
    List.countP_pos.2 ⟨u, humem, by simp [huid, hempty]⟩
  have hcnt0 : (users.countP (fun v => v.id == id && v.username == "") == 0)
      = false := by
    simpa [beq_eq_false_iff_ne] using Nat.pos_iff_ne_zero.1 hcnt
  have hfid : ∀ x : UserV2,
      (if x.id == id && x.username == "" then { x with username := trimSpace (toLowerGo name) } else x).id = x.id :=
    fun x => by by_cases h : (x.id == id && x.username == "") = true <;> simp [h]
  have hfind1 : (applyUsername id (trimSpace (toLowerGo name)) users).find?
      (fun x => x.id == id) =
      some { u with username := trimSpace (toLowerGo name) } := by
    unfold applyUsername
    rw [find?_map_key (fun x : UserV2 => x.id) id _ hfid, hf]
    simp [huid, hempty]
  have hrun : SetUsernameOnce users id name =
      (.ok { u with username := trimSpace (toLowerGo name) },
       applyUsername id (trimSpace (toLowerGo name)) users) :=
    SetUsernameOnce_run_ok hcond1 hval hcnt0 hfind1
  have hzero : ((applyUsername id (trimSpace (toLowerGo name)) users).countP
      (fun v => v.id == id && v.username == "") == 0) = true := by
    have : (applyUsername id (trimSpace (toLowerGo name)) users).countP
        (fun v => v.id == id && v.username == "") = 0 := by
      rw [List.countP_eq_zero]
      intro a ha
      obtain ⟨x, hx, rfl⟩ := List.mem_map.1 ha
      by_cases h : (x.id == id && x.username == "") = true
      · simp [h, hne]
      · simpa [h] using h
    simp [this]
  have htrim : (trimSpace ({ u with username := trimSpace (toLowerGo name) } : UserV2).username != "") = true := by
    show (trimSpace (trimSpace (toLowerGo name)) != "") = true
    rw [trim_validated hval]
    simp [hne]
  refine ⟨by rw [hrun], ?_, ?_, ?_⟩
  · intro name2 hne2 hval2
    rw [hrun]
    exact SetUsernameOnce_run_alreadySet (by simp [hne2]) hval2 hzero hfind1 htrim
  · intro name2 e hne2 hval2
    rw [hrun]
    exact SetUsernameOnce_run_invalid (by simp [hne2]) hval2
  · intro name2 h0
    rw [hrun]
    exact SetUsernameOnce_run_required (by simp [h0])

/-- Witness for C9's amended statement: `alice` is stored once; a second
valid value reports `usernameAlreadySet`; a second invalid value reports the
length validation error; all leave the row unchanged. -/
theorem setUsernameOnce_contract_witness :
    ((SetUsernameOnce [⟨1, "e@x", "", "user"⟩] 1 "alice").1 =
      .ok ⟨1, "e@x", "alice", "user"⟩ ∧
     SetUsernameOnce (SetUsernameOnce [⟨1, "e@x", "", "user"⟩] 1 "alice").2 1 "bob" =
      (.error .usernameAlreadySet,
       (SetUsernameOnce [⟨1, "e@x", "", "user"⟩] 1 "alice").2) ∧
     SetUsernameOnce (SetUsernameOnce [⟨1, "e@x", "", "user"⟩] 1 "alice").2 1 "ab" =
      (.error .usernameLength,
       (SetUsernameOnce [⟨1, "e@x", "", "user"⟩] 1 "alice").2)) := by
  have h := setUsernameOnce_contract [⟨1, "e@x", "", "user"⟩] 1
    ⟨1, "e@x", "", "user"⟩ (by decide) rfl "alice" (by decide) (by decide)
  refine ⟨?_, ?_, ?_⟩
  · have := h.1
    rw [this]
    decide
  · exact h.2.1 "bob" (by decide) (by decide)
  · exact h.2.2.1 "ab" .usernameLength (by decide) (by decide)

/-- Counterexample to C9 as stated: with the username still unset, a first
call with the too-short value `ab` does not succeed, and with the username
already set, a call with that invalid value fails with the validation
error, not `UsernameAlreadySet`. -/
theorem setUsernameOnce_counterexample :
    (SetUsernameOnce [⟨1, "e@x", "", "user"⟩] 1 "ab").1 =
      .error .usernameLength ∧
    (SetUsernameOnce [⟨1, "e@x", "alice", "user"⟩] 1 "ab").1 =
      .error .usernameLength ∧
    (SetUsernameOnce [⟨1, "e@x", "alice", "user"⟩] 1 "ab").1 ≠
      .error .usernameAlreadySet := by
  decide

/-! ## Token layer — string primitives

Go strings are byte sequences; the token code only ever splits and compares
them bytewise, so they are modelled as `List Char` (`List Nat` for raw
bytes) with the Go library routines the code calls (`strings.Split` on a
one-character separator, `strconv.ParseInt`, `fmt.Sprintf "%d"`)
reimplemented on that representation. -/

/-- `strings.Split` with a single-character separator. -/
def splitOnChar (sep : Char) : List Char → List (List Char)
  | [] => [[]]
  | c :: rest =>
      if c == sep then [] :: splitOnChar sep rest
      else
        match splitOnChar sep rest with
        | [] => [[c]]
        | x :: xs => (c :: x) :: xs

theorem splitOnChar_ne_nil (sep : Char) (l : List Char) :
    splitOnChar sep l ≠ [] := by
  cases l with
  | nil => simp [splitOnChar]
  | cons c rest =>
      unfold splitOnChar
      split
      · simp
      · split <;> simp

/-- Splitting a separator-free string gives one field. -/
theorem splitOnChar_nosep {sep : Char} : ∀ {l : List Char}, sep ∉ l →
    splitOnChar sep l = [l]
  | [], _ => rfl
  | c :: rest, h => by
      have hc : (c == sep) = false := by
        simp only [beq_eq_false_iff_ne]
        intro he
        exact h (List.mem_cons.2 (Or.inl he.symm))
      have hrest : sep ∉ rest := fun hm => h (List.mem_cons_of_mem c hm)
      simp [splitOnChar, hc, splitOnChar_nosep hrest]

/-- Splitting past a separator peels off the separator-free prefix. -/
theorem splitOnChar_append {sep : Char} : ∀ {A : List Char}, sep ∉ A →
    ∀ B, splitOnChar sep (A ++ sep :: B) = A :: splitOnChar sep B
  | [], _, B => by simp [splitOnChar]
  | a :: A, h, B => by
      have ha : (a == sep) = false := by
        simp only [beq_eq_false_iff_ne]
        intro he
        exact h (List.mem_cons.2 (Or.inl he.symm))
      have hA : sep ∉ A := fun hm => h (List.mem_cons_of_mem a hm)
      have ih := splitOnChar_append hA B
      simp [splitOnChar, ha, ih]

/-- A string containing the separator splits into at least two fields. -/
theorem splitOnChar_mem_length {sep : Char} : ∀ {l : List Char}, sep ∈ l →
    2 ≤ (splitOnChar sep l).length
  | c :: rest, h => by
      unfold splitOnChar
      by_cases hc : c = sep
      · rw [if_pos (by simp [hc])]
        have := splitOnChar_ne_nil sep rest
        simp only [List.length_cons]
        cases hr : splitOnChar sep rest with
        | nil => exact absurd hr this
        | cons x xs => simp
      · rw [if_neg (by simp [hc])]
        have hmem : sep ∈ rest := by
          rcases List.mem_cons.1 h with h1 | h1
          · exact absurd h1.symm hc
          · exact h1
        have h2 := splitOnChar_mem_length hmem
        cases hr : splitOnChar sep rest with
        | nil => exact absurd hr (splitOnChar_ne_nil sep rest)
        | cons x xs =>
            rw [hr] at h2
            simpa using h2

/-- `fmt.Sprintf "%d"` on a natural number: fuel-driven digit expansion
(the fuel `n + 1` always suffices since the argument shrinks by a factor of
ten each step). -/
def natToStrAux : Nat → Nat → List Char
  | 0, _ => []
  | fuel + 1, n =>
      if n < 10 then [Char.ofNat (48 + n)]
      else natToStrAux fuel (n / 10) ++ [Char.ofNat (48 + n % 10)]

def natToStr (n : Nat) : List Char := natToStrAux (n + 1) n

/-- `fmt.Sprintf "%d"` on an `int64`. -/
def intToStr (i : Int) : List Char :=
  if i < 0 then '-' :: natToStr i.natAbs else natToStr i.natAbs

/-- Digit accumulator of `strconv.ParseInt` (base 10). -/
def parseNatCore (acc : Nat) : List Char → Option Nat
  | [] => some acc
  | c :: rest =>
      if 48 ≤ c.toNat && c.toNat ≤ 57 then
        parseNatCore (acc * 10 + (c.toNat - 48)) rest
      else none

/-- `strconv.ParseUint` base 10 (empty input is an error).  The `int64`
overflow cut-off is not modelled: every value parsed in this development is
itself the print-out of an `int64`. -/
def parseNat (s : List Char) : Option Nat :=
  match s with
  | [] => none
  | _ => parseNatCore 0 s

/-- `strconv.ParseInt` base 10: optional sign, then digits. -/
def parseInt (s : List Char) : Option Int :=
  match s with
  | [] => none
  | c :: rest =>
      if c == '-' then
        match parseNat rest with
        | some n => some (-(n : Int))
        | none => none
      else if c == '+' then
        match parseNat rest with
        | some n => some ((n : Int))
        | none => none
      else
        match parseNat (c :: rest) with
        | some n => some ((n : Int))
        | none => none

/-- `Char.toNat` inverts `Char.ofNat` on valid codepoints. -/
theorem toNat_ofNat_valid {n : Nat} (h : n.isValidChar) :
    (Char.ofNat n).toNat = n := by
  unfold Char.ofNat
  rw [dif_pos h]
  rfl

/-- The digit expansion produces only decimal digit characters. -/
theorem natToStrAux_digits : ∀ (fuel n : Nat), ∀ c ∈ natToStrAux fuel n,
    48 ≤ c.toNat ∧ c.toNat ≤ 57
  | 0, _, c, hc => by simp [natToStrAux] at hc
  | fuel + 1, n, c, hc => by
      unfold natToStrAux at hc
      split at hc
      · rename_i h10
        simp only [List.mem_singleton] at hc
        subst hc
        have hv : (48 + n).isValidChar := by
          left
          omega
        rw [toNat_ofNat_valid hv]
        omega
      · rcases List.mem_append.1 hc with h | h
        · exact natToStrAux_digits fuel (n / 10) c h
        · simp only [List.mem_singleton] at h
          subst h
          have hv : (48 + n % 10).isValidChar := by
            left
            have := Nat.mod_lt n (show 0 < 10 by decide)
            omega
          rw [toNat_ofNat_valid hv]
          have := Nat.mod_lt n (show 0 < 10 by decide)
          omega

/-- `parseNatCore` across an append. -/
theorem parseNatCore_append : ∀ (acc : Nat) (A B : List Char),
    parseNatCore acc (A ++ B) =
      (parseNatCore acc A).bind (fun m => parseNatCore m B)
  | _, [], _ => rfl
  | acc, c :: A, B => by
      by_cases hd : (decide (48 ≤ c.toNat) && decide (c.toNat ≤ 57)) = true
      · have e1 : parseNatCore acc (c :: (A ++ B)) =
            parseNatCore (acc * 10 + (c.toNat - 48)) (A ++ B) := by
          conv_lhs => unfold parseNatCore
          rw [if_pos hd]
        have e2 : parseNatCore acc (c :: A) =
            parseNatCore (acc * 10 + (c.toNat - 48)) A := by
          conv_lhs => unfold parseNatCore
          rw [if_pos hd]
        show parseNatCore acc (c :: (A ++ B)) =
          (parseNatCore acc (c :: A)).bind (fun m => parseNatCore m B)
        rw [e1, e2]
        exact parseNatCore_append (acc * 10 + (c.toNat - 48)) A B
      · have e1 : parseNatCore acc (c :: (A ++ B)) = none := by
          conv_lhs => unfold parseNatCore
          rw [if_neg hd]
        have e2 : parseNatCore acc (c :: A) = none := by
          conv_lhs => unfold parseNatCore
          rw [if_neg hd]
        show parseNatCore acc (c :: (A ++ B)) =
          (parseNatCore acc (c :: A)).bind (fun m => parseNatCore m B)
        rw [e1, e2]
        rfl

/-- Parsing inverts printing, digit by digit. -/
theorem parseNatCore_natToStrAux : ∀ (fuel n acc : Nat), n < fuel →
    parseNatCore acc (natToStrAux fuel n) =
      some (acc * 10 ^ (natToStrAux fuel n).length + n)
  | 0, n, acc, h => by omega
  | fuel + 1, n, acc, h => by
      unfold natToStrAux
      split
      · rename_i h10
        have hv : (48 + n).isValidChar := by left; omega
        unfold parseNatCore
        rw [if_pos (by rw [toNat_ofNat_valid hv]; simp; omega)]
        unfold parseNatCore
        rw [toNat_ofNat_valid hv]
        simp only [List.length_cons, List.length_nil, pow_one]
        congr 1
        omega
      · rename_i h10
        have hfuel : n / 10 < fuel := by omega
        rw [parseNatCore_append]
        rw [parseNatCore_natToStrAux fuel (n / 10) acc hfuel]
        simp only [Option.bind]
        have hv : (48 + n % 10).isValidChar := by
          left
          have := Nat.mod_lt n (show 0 < 10 by decide)
          omega
        unfold parseNatCore
        rw [if_pos (by
          rw [toNat_ofNat_valid hv]
          simp
          have := Nat.mod_lt n (show 0 < 10 by decide)
          omega)]
        unfold parseNatCore
        rw [toNat_ofNat_valid hv]
        simp only [List.length_append, List.length_cons, List.length_nil]
        congr 1
        have hmod := Nat.mod_lt n (show 0 < 10 by decide)
        rw [pow_succ]
        ring_nf
        omega

theorem natToStrAux_ne_nil (fuel n : Nat) (h : 0 < fuel) :
    natToStrAux fuel n ≠ [] := by
  cases fuel with
  | zero => omega
  | succ fuel =>
      unfold natToStrAux
      split <;> simp

/-- Parsing inverts printing for naturals. -/
theorem parseNat_natToStr (n : Nat) : parseNat (natToStr n) = some n := by
  have hcore := parseNatCore_natToStrAux (n + 1) n 0 (by omega)
  rw [Nat.zero_mul, Nat.zero_add] at hcore
  unfold parseNat natToStr
  split
  · rename_i he
    exact absurd he (natToStrAux_ne_nil (n + 1) n (by omega))
  · exact hcore

/-- Every character printed for an `int64` is a digit or the minus sign. -/
theorem intToStr_chars (i : Int) : ∀ c ∈ intToStr i,
    c.toNat = 45 ∨ (48 ≤ c.toNat ∧ c.toNat ≤ 57) := by
  unfold intToStr
  split
  · intro c hc
    rcases List.mem_cons.1 hc with h | h
    · subst h
      left
      rfl
    · right
      exact natToStrAux_digits _ _ c h
  · intro c hc
    right
    exact natToStrAux_digits _ _ c hc

theorem colon_not_mem_intToStr (i : Int) : ':' ∉ intToStr i := by
  intro h
  have h2 := intToStr_chars i ':' h
  have h3 : (':'.toNat) = 58 := rfl
  omega

theorem dot_not_mem_intToStr (i : Int) : '.' ∉ intToStr i := by
  intro h
  have h2 := intToStr_chars i '.' h
  have h3 : ('.'.toNat) = 46 := rfl
  omega

/-- Parsing inverts printing for `int64` values. -/
theorem parseInt_intToStr (i : Int) : parseInt (intToStr i) = some i := by
  by_cases hneg : i < 0
  · have hi : intToStr i = '-' :: natToStr i.natAbs := by
      unfold intToStr
      rw [if_pos hneg]
    rw [hi]
    simp only [parseInt]
    rw [if_pos (show (('-' : Char) == '-') = true from rfl)]
    rw [parseNat_natToStr]
    have : -((i.natAbs : Nat) : Int) = i := by omega
    show some (-((i.natAbs : Nat) : Int)) = some i
    rw [this]
  · have hi : intToStr i = natToStr i.natAbs := by
      unfold intToStr
      rw [if_neg hneg]
    rw [hi]
    cases he : natToStr i.natAbs with
    | nil =>
        have : natToStrAux (i.natAbs + 1) i.natAbs = [] := he
        exact absurd this (natToStrAux_ne_nil _ _ (by omega))
    | cons c rest =>
        have hdig : 48 ≤ c.toNat ∧ c.toNat ≤ 57 := by
          refine natToStrAux_digits (i.natAbs + 1) i.natAbs c ?_
          rw [show natToStrAux (i.natAbs + 1) i.natAbs = c :: rest from he]
          simp
        simp only [parseInt]
        rw [if_neg (by
          intro hbeq
          have hcm := eq_of_beq hbeq
          subst hcm
          have hm : ('-'.toNat) = 45 := rfl
          omega)]
        rw [if_neg (by
          intro hbeq
          have hcm := eq_of_beq hbeq
          subst hcm
          have hm : ('+'.toNat) = 43 := rfl
          omega)]
        rw [show parseNat (c :: rest) = some i.natAbs from by
          rw [← he]
          exact parseNat_natToStr i.natAbs]
        have : ((i.natAbs : Nat) : Int) = i := by omega
        show some ((i.natAbs : Nat) : Int) = some i
        rw [this]

/-! ## Base64 — Go's `encoding/base64`

`createToken`/`sign` use `base64.RawStdEncoding` (standard alphabet, no
padding).  The encoder is written with `/` and `% 64` in place of Go's
shifts and `& 0x3F` masks — identical on every input since the operands are
non-negative.  The decoder mirrors Go's non-strict mode: unused trailing
bits are ignored, a leftover of one character is corrupt input.  The
URL-safe alphabet encoder exists only as the refinement target the
specification's wording asks for. -/

def b64Alphabet : List Char :=
  "ABCDEFGHIJKLMNOPQRSTUVWXYZabcdefghijklmnopqrstuvwxyz0123456789+/".data

def b64urlAlphabet : List Char :=
  "ABCDEFGHIJKLMNOPQRSTUVWXYZabcdefghijklmnopqrstuvwxyz0123456789-_".data

def b64Char (ab : List Char) (n : Nat) : Char := ab.getD n 'A'

/-- Reverse lookup in the standard alphabet (`nil` for foreign symbols). -/
def b64Val (c : Char) : Option Nat := b64Alphabet.indexOf? c

/-- The Go base64 encoder over an arbitrary alphabet: three bytes become
four sextets, a two-byte tail three, a one-byte tail two. -/
def encB64With (ab : List Char) : List Nat → List Char
  | b0 :: b1 :: b2 :: rest =>
      b64Char ab ((b0 * 65536 + b1 * 256 + b2) / 262144 % 64) ::
      b64Char ab ((b0 * 65536 + b1 * 256 + b2) / 4096 % 64) ::
      b64Char ab ((b0 * 65536 + b1 * 256 + b2) / 64 % 64) ::
      b64Char ab ((b0 * 65536 + b1 * 256 + b2) % 64) :: encB64With ab rest
  | [b0, b1] =>
      [b64Char ab ((b0 * 65536 + b1 * 256) / 262144 % 64),
       b64Char ab ((b0 * 65536 + b1 * 256) / 4096 % 64),
       b64Char ab ((b0 * 65536 + b1 * 256) / 64 % 64)]
  | [b0] =>
      [b64Char ab ((b0 * 65536) / 262144 % 64),
       b64Char ab ((b0 * 65536) / 4096 % 64)]
  | [] => []

/-- `base64.RawStdEncoding.EncodeToString`. -/
def encB64 : List Nat → List Char := encB64With b64Alphabet

/-- base64url (RawURLEncoding) — the encoding the specification names. -/
def encB64URL : List Nat → List Char := encB64With b64urlAlphabet

/-- `base64.RawStdEncoding.DecodeString`. -/
def decB64 : List Char → Option (List Nat)
  | c0 :: c1 :: c2 :: c3 :: rest =>
      match b64Val c0, b64Val c1, b64Val c2, b64Val c3, decB64 rest with
      | some s0, some s1, some s2, some s3, some tail =>
          some (((s0 * 262144 + s1 * 4096 + s2 * 64 + s3) / 65536 % 256) ::
                ((s0 * 262144 + s1 * 4096 + s2 * 64 + s3) / 256 % 256) ::
                ((s0 * 262144 + s1 * 4096 + s2 * 64 + s3) % 256) :: tail)
      | _, _, _, _, _ => none
  | [c0, c1, c2] =>
      match b64Val c0, b64Val c1, b64Val c2 with
      | some s0, some s1, some s2 =>
          some [(s0 * 262144 + s1 * 4096 + s2 * 64) / 65536 % 256,
                (s0 * 262144 + s1 * 4096 + s2 * 64) / 256 % 256]
      | _, _, _ => none
  | [c0, c1] =>
      match b64Val c0, b64Val c1 with
      | some s0, some s1 => some [(s0 * 262144 + s1 * 4096) / 65536 % 256]
      | _, _ => none
  | [_] => none
  | [] => some []

/-- An alphabet lookup lands in the alphabet or at the default. -/
theorem b64Char_mem_or_default (ab : List Char) (n : Nat) :
    b64Char ab n ∈ ab ∨ b64Char ab n = 'A' := by
  by_cases h : n < ab.length
  · left
    unfold b64Char
    rw [List.getD_eq_getElem _ _ h]
    exact List.getElem_mem h
  · right
    exact List.getD_eq_default _ _ (by omega)

/-- An encoder output character is an alphabet character or the lookup
default. -/
theorem mem_encB64With (ab : List Char) : ∀ (bytes : List Nat) (c : Char),
    c ∈ encB64With ab bytes → c ∈ ab ∨ c = 'A'
  | b0 :: b1 :: b2 :: rest, c, hc => by
      rw [show encB64With ab (b0 :: b1 :: b2 :: rest) =
        b64Char ab ((b0 * 65536 + b1 * 256 + b2) / 262144 % 64) ::
        b64Char ab ((b0 * 65536 + b1 * 256 + b2) / 4096 % 64) ::
        b64Char ab ((b0 * 65536 + b1 * 256 + b2) / 64 % 64) ::
        b64Char ab ((b0 * 65536 + b1 * 256 + b2) % 64) ::
        encB64With ab rest from rfl] at hc
      simp only [List.mem_cons] at hc
      rcases hc with hc | hc | hc | hc | hc
      · subst hc; exact b64Char_mem_or_default ab _
      · subst hc; exact b64Char_mem_or_default ab _
      · subst hc; exact b64Char_mem_or_default ab _
      · subst hc; exact b64Char_mem_or_default ab _
      · exact mem_encB64With ab rest c hc
  | [b0, b1], c, hc => by
      rw [show encB64With ab [b0, b1] =
        [b64Char ab ((b0 * 65536 + b1 * 256) / 262144 % 64),
         b64Char ab ((b0 * 65536 + b1 * 256) / 4096 % 64),
         b64Char ab ((b0 * 65536 + b1 * 256) / 64 % 64)] from rfl] at hc
      simp only [List.mem_cons, List.not_mem_nil, or_false] at hc
      rcases hc with hc | hc | hc <;> (subst hc; exact b64Char_mem_or_default ab _)
  | [b0], c, hc => by
      rw [show encB64With ab [b0] =
        [b64Char ab ((b0 * 65536) / 262144 % 64),
         b64Char ab ((b0 * 65536) / 4096 % 64)] from rfl] at hc
      simp only [List.mem_cons, List.not_mem_nil, or_false] at hc
      rcases hc with hc | hc <;> (subst hc; exact b64Char_mem_or_default ab _)
  | [], c, hc => by
      rw [show encB64With ab [] = [] from rfl] at hc
      simp at hc

/-- The standard-alphabet encoding never emits a dot. -/
theorem encB64_no_dot (bytes : List Nat) : '.' ∉ encB64 bytes := by
  intro h
  rcases mem_encB64With b64Alphabet bytes '.' h with hm | hm
  · exact absurd hm (by decide)
  · exact absurd hm (by decide)

/-- The standard-alphabet encoding never emits a colon. -/
theorem encB64_no_colon (bytes : List Nat) : ':' ∉ encB64 bytes := by
  intro h
  rcases mem_encB64With b64Alphabet bytes ':' h with hm | hm
  · exact absurd hm (by decide)
  · exact absurd hm (by decide)

/-- Reverse lookup inverts the alphabet. -/
theorem b64Val_b64Char : ∀ s : Nat, s < 64 →
    b64Val (b64Char b64Alphabet s) = some s := by decide

/-- Decoding inverts encoding on byte input (values below 256). -/
theorem decB64_encB64 : ∀ (bytes : List Nat), (∀ b ∈ bytes, b < 256) →
    decB64 (encB64 bytes) = some bytes
  | b0 :: b1 :: b2 :: rest, h => by
      have h0 : b0 < 256 := h b0 (by simp)
      have h1 : b1 < 256 := h b1 (by simp)
      have h2 : b2 < 256 := h b2 (by simp)
      have ih := decB64_encB64 rest (fun b hb => h b (by simp [hb]))
      rw [show encB64 (b0 :: b1 :: b2 :: rest) =
        b64Char b64Alphabet ((b0 * 65536 + b1 * 256 + b2) / 262144 % 64) ::
        b64Char b64Alphabet ((b0 * 65536 + b1 * 256 + b2) / 4096 % 64) ::
        b64Char b64Alphabet ((b0 * 65536 + b1 * 256 + b2) / 64 % 64) ::
        b64Char b64Alphabet ((b0 * 65536 + b1 * 256 + b2) % 64) ::
        encB64 rest from rfl]
      rw [show ∀ c0 c1 c2 c3 r, decB64 (c0 :: c1 :: c2 :: c3 :: r) =
        (match b64Val c0, b64Val c1, b64Val c2, b64Val c3, decB64 r with
        | some s0, some s1, some s2, some s3, some tail =>
            some (((s0 * 262144 + s1 * 4096 + s2 * 64 + s3) / 65536 % 256) ::
                  ((s0 * 262144 + s1 * 4096 + s2 * 64 + s3) / 256 % 256) ::
                  ((s0 * 262144 + s1 * 4096 + s2 * 64 + s3) % 256) :: tail)
        | _, _, _, _, _ => none) from fun _ _ _ _ _ => rfl]
      rw [b64Val_b64Char _ (Nat.mod_lt _ (by decide)),
        b64Val_b64Char _ (Nat.mod_lt _ (by decide)),
        b64Val_b64Char _ (Nat.mod_lt _ (by decide)),
        b64Val_b64Char _ (Nat.mod_lt _ (by decide)), ih]
      simp only [Option.some.injEq, List.cons.injEq]
      refine ⟨?_, ?_, ?_, trivial⟩ <;> omega
  | [b0, b1], h => by
      have h0 : b0 < 256 := h b0 (by simp)
      have h1 : b1 < 256 := h b1 (by simp)
      rw [show encB64 [b0, b1] =
        [b64Char b64Alphabet ((b0 * 65536 + b1 * 256) / 262144 % 64),
         b64Char b64Alphabet ((b0 * 65536 + b1 * 256) / 4096 % 64),
         b64Char b64Alphabet ((b0 * 65536 + b1 * 256) / 64 % 64)] from rfl]
      rw [show ∀ c0 c1 c2, decB64 [c0, c1, c2] =
        (match b64Val c0, b64Val c1, b64Val c2 with
        | some s0, some s1, some s2 =>
            some [(s0 * 262144 + s1 * 4096 + s2 * 64) / 65536 % 256,
                  (s0 * 262144 + s1 * 4096 + s2 * 64) / 256 % 256]
        | _, _, _ => none) from fun _ _ _ => rfl]
      rw [b64Val_b64Char _ (Nat.mod_lt _ (by decide)),
        b64Val_b64Char _ (Nat.mod_lt _ (by decide)),
        b64Val_b64Char _ (Nat.mod_lt _ (by decide))]
      simp only [Option.some.injEq, List.cons.injEq]
      refine ⟨?_, ?_, trivial⟩ <;> omega
  | [b0], h => by
      have h0 : b0 < 256 := h b0 (by simp)
      rw [show encB64 [b0] =
        [b64Char b64Alphabet ((b0 * 65536) / 262144 % 64),
         b64Char b64Alphabet ((b0 * 65536) / 4096 % 64)] from rfl]
      rw [show ∀ c0 c1, decB64 [c0, c1] =
        (match b64Val c0, b64Val c1 with
        | some s0, some s1 => some [(s0 * 262144 + s1 * 4096) / 65536 % 256]
        | _, _ => none) from fun _ _ => rfl]
      rw [b64Val_b64Char _ (Nat.mod_lt _ (by decide)),
        b64Val_b64Char _ (Nat.mod_lt _ (by decide))]
      simp only [Option.some.injEq, List.cons.injEq]
      refine ⟨?_, trivial⟩
      omega
  | [], _ => rfl

/-! ## SHA-256 and HMAC — Go's `crypto/sha256` and `crypto/hmac`

The token code signs with `hmac.New(sha256.New, secret)`.  Both library
primitives are deterministic, standardised functions (FIPS 180-4 /
RFC 2104); they are reproduced here bit-for-bit on `Nat` bytes/32-bit words
(`% 4294967296` realises the `uint32` wrap-around) so that concrete token
values in this file are the real ones the program produces. -/

/-- `uint32` truncation. -/
def w32 (n : Nat) : Nat := n % 4294967296

/-- 32-bit rotate right by `k` (for `x < 2^32`, `k ≤ 32`). -/
def rotr32 (k x : Nat) : Nat := x / 2 ^ k + x % 2 ^ k * 2 ^ (32 - k)

def shaCh (x y z : Nat) : Nat := (x &&& y) ^^^ ((x ^^^ 4294967295) &&& z)

def shaMaj (x y z : Nat) : Nat := (x &&& y) ^^^ (x &&& z) ^^^ (y &&& z)

def bigSigma0 (x : Nat) : Nat := rotr32 2 x ^^^ rotr32 13 x ^^^ rotr32 22 x

def bigSigma1 (x : Nat) : Nat := rotr32 6 x ^^^ rotr32 11 x ^^^ rotr32 25 x

def smallSigma0 (x : Nat) : Nat := rotr32 7 x ^^^ rotr32 18 x ^^^ x / 2 ^ 3

def smallSigma1 (x : Nat) : Nat := rotr32 17 x ^^^ rotr32 19 x ^^^ x / 2 ^ 10

/-- The 64 SHA-256 round constants. -/
def sha256K : List Nat :=
  [1116352408, 1899447441, 3049323471, 3921009573, 961987163,
   1508970993, 2453635748, 2870763221, 3624381080, 310598401,
   607225278, 1426881987, 1925078388, 2162078206, 2614888103,
   3248222580, 3835390401, 4022224774, 264347078, 604807628,
   770255983, 1249150122, 1555081692, 1996064986, 2554220882,
   2821834349, 2952996808, 3210313671, 3336571891, 3584528711,
   113926993, 338241895, 666307205, 773529912, 1294757372,
   1396182291, 1695183700, 1986661051, 2177026350, 2456956037,
   2730485921, 2820302411, 3259730800, 3345764771, 3516065817,
   3600352804, 4094571909, 275423344, 430227734, 506948616,
   659060556, 883997877, 958139571, 1322822218, 1537002063,
   1747873779, 1955562222, 2024104815, 2227730452, 2361852424,
   2428436474, 2756734187, 3204031479, 3329325298]

/-- The SHA-256 initial hash value. -/
def sha256Init : List Nat :=
  [1779033703, 3144134277, 1013904242, 2773480762,
   1359893119, 2600822924, 528734635, 1541459225]

/-- Big-endian 32-bit words from bytes (length a multiple of four). -/
def bytesToWords : List Nat → List Nat
  | b0 :: b1 :: b2 :: b3 :: rest =>
      (b0 * 16777216 + b1 * 65536 + b2 * 256 + b3) :: bytesToWords rest
  | _ => []

/-- Big-endian bytes of one 32-bit word. -/
def wordToBytes (w : Nat) : List Nat :=
  [w / 16777216 % 256, w / 65536 % 256, w / 256 % 256, w % 256]

/-- Big-endian bytes of a word list. -/
def wordsToBytes (ws : List Nat) : List Nat :=
  ws.foldr (fun w acc => wordToBytes w ++ acc) []

/-- Message-schedule extension: append `k` further words. -/
def shaExtend (w : List Nat) : Nat → List Nat
  | 0 => w
  | k + 1 =>
      shaExtend (w ++ [w32 (smallSigma1 (w.getD (w.length - 2) 0)
        + w.getD (w.length - 7) 0
        + smallSigma0 (w.getD (w.length - 15) 0)
        + w.getD (w.length - 16) 0)]) k

/-- One compression round over the 8-word working state. -/
def shaRound (st : List Nat) (kw : Nat × Nat) : List Nat :=
  match st with
  | [a, b, c, d, e, f, g, h] =>
      [w32 (w32 (h + bigSigma1 e + shaCh e f g + kw.1 + kw.2)
          + w32 (bigSigma0 a + shaMaj a b c)),
       a, b, c,
       w32 (d + w32 (h + bigSigma1 e + shaCh e f g + kw.1 + kw.2)),
       e, f, g]
  | _ => st

/-- Compress one 64-byte block into the running hash. -/
def shaBlock (h : List Nat) (block : List Nat) : List Nat :=
  (h.zip ((sha256K.zip (shaExtend (bytesToWords block) 48)).foldl shaRound h)).map
    (fun p => w32 (p.1 + p.2))

/-- Split into 64-byte blocks (fuel-driven; `l.length` always suffices). -/
def chunks64Aux : Nat → List Nat → List (List Nat)
  | 0, _ => []
  | _, [] => []
  | fuel + 1, l => l.take 64 :: chunks64Aux fuel (l.drop 64)

/-- SHA-256 padding: `0x80`, zeros to 56 mod 64, 8-byte big-endian bit
length. -/
def sha256Pad (msg : List Nat) : List Nat :=
  msg ++ 0x80 :: List.replicate ((64 - (msg.length + 9) % 64) % 64) 0
    ++ [msg.length * 8 / 72057594037927936 % 256,
        msg.length * 8 / 281474976710656 % 256,
        msg.length * 8 / 1099511627776 % 256,
        msg.length * 8 / 4294967296 % 256,
        msg.length * 8 / 16777216 % 256,
        msg.length * 8 / 65536 % 256,
        msg.length * 8 / 256 % 256,
        msg.length * 8 % 256]

/-- SHA-256 of a byte list. -/
def sha256 (msg : List Nat) : List Nat :=
  wordsToBytes ((chunks64Aux (sha256Pad msg).length (sha256Pad msg)).foldl
    shaBlock sha256Init)

/-- HMAC-SHA256 (RFC 2104): hash long keys, zero-pad, inner and outer
passes with the `0x36`/`0x5c` pads. -/
def hmacSHA256 (key msg : List Nat) : List Nat :=
  sha256 (((if 64 < key.length then sha256 key else key)
      ++ List.replicate (64 - (if 64 < key.length then sha256 key else key).length) 0).map
        (fun b => b ^^^ 0x5c)
    ++ sha256 (((if 64 < key.length then sha256 key else key)
      ++ List.replicate (64 - (if 64 < key.length then sha256 key else key).length) 0).map
        (fun b => b ^^^ 0x36)
    ++ msg))

/-- `wordsToBytes` yields bytes. -/
theorem wordsToBytes_lt (ws : List Nat) : ∀ b ∈ wordsToBytes ws, b < 256 := by
  induction ws with
  | nil => simp [wordsToBytes]
  | cons w ws ih =>
      intro b hb
      unfold wordsToBytes at hb
      simp only [List.foldr_cons] at hb
      rcases List.mem_append.1 hb with h | h
      · unfold wordToBytes at h
        simp only [List.mem_cons, List.not_mem_nil, or_false] at h
        rcases h with h | h | h | h <;> (subst h; omega)
      · exact ih b h

/-- SHA-256 output is a byte list. -/
theorem sha256_bytes (msg : List Nat) : ∀ b ∈ sha256 msg, b < 256 :=
  wordsToBytes_lt _

/-- HMAC-SHA256 output is a byte list. -/
theorem hmacSHA256_bytes (key msg : List Nat) :
    ∀ b ∈ hmacSHA256 key msg, b < 256 :=
  wordsToBytes_lt _

/-! ## The token service — bot.go lines 1003–1057 -/

/-- `authExpiry = 30 * 24 * time.Hour`, in seconds. -/
def authExpiry : Int := 30 * 24 * 60 * 60

/-- Byte view of a Go string (all strings handled here are ASCII). -/
def strBytes (l : List Char) : List Nat := l.map Char.toNat

/-- Go's `string(bytes)` conversion as used on the decoded payload. -/
def bytesChars (l : List Nat) : List Char := l.map Char.ofNat

structure TokenClaims where
  userId : Int
  role : List Char
  exp : Int
  deriving Repr, DecidableEq

/-- `fmt.Sprintf("%d:%s:%d", u.ID, u.Role, exp)`. -/
def payloadChars (uid : Int) (role : List Char) (exp : Int) : List Char :=
  intToStr uid ++ ':' :: (role ++ ':' :: intToStr exp)

/-- `sign` (bot.go lines 1048–1052): base64 (RawStdEncoding) of the
HMAC-SHA256 of the payload under the secret. -/
def sign (secret : List Nat) (payload : List Char) : List Char :=
  encB64 (hmacSHA256 secret (strBytes payload))

/-- `verify` (bot.go lines 1054–1057): recompute and compare
(`hmac.Equal` is byte equality). -/
def verify (secret : List Nat) (payload : List Char) (sig : List Char) : Bool :=
  sign secret payload == sig

/-- `createToken` (bot.go lines 1009–1014): base64 payload, a dot, the
signature. -/
def createToken (u : User) (secret : List Nat) (now : Int) : List Char :=
  encB64 (strBytes (payloadChars u.id u.role.data (now + authExpiry))) ++
    '.' :: sign secret (payloadChars u.id u.role.data (now + authExpiry))

/-- The distinct error paths of `parseToken`. -/
inductive TokenErr where
  | invalidToken
  | badEncoding
  | invalidSignature
  | invalidPayload
  | badNumber
  | expired
  deriving Repr, DecidableEq

/-- Final step of `parseToken`: the `time.Now().Unix() > claims.Exp`
expiry check (bot.go lines 1040–1043). -/
def parseTokenExp (uid : Int) (role : List Char) (exp : Int) (now : Int) :
    Except TokenErr TokenClaims :=
  if now > exp then .error .expired else .ok ⟨uid, role, exp⟩

/-- The two `strconv.ParseInt` calls of `parseToken`
(bot.go lines 1031–1038). -/
def parseTokenNums (i0 i1 i2 : List Char) (now : Int) :
    Except TokenErr TokenClaims :=
  match parseInt i0 with
  | none => .error .badNumber
  | some uid =>
      match parseInt i2 with
      | none => .error .badNumber
      | some exp => parseTokenExp uid i1 exp now

/-- The `len(fields) != 3` check of `parseToken` (bot.go lines 1028–1030). -/
def parseTokenFields (fields : List (List Char)) (now : Int) :
    Except TokenErr TokenClaims :=
  match fields with
  | [i0, i1, i2] => parseTokenNums i0 i1 i2 now
  | _ => .error .invalidPayload

/-- Signature verification and payload split of `parseToken`
(bot.go lines 1024–1027). -/
def parseTokenPayload (payloadBytes : List Nat) (p1 : List Char)
    (secret : List Nat) (now : Int) : Except TokenErr TokenClaims :=
  if verify secret (bytesChars payloadBytes) p1 then
    parseTokenFields (splitOnChar ':' (bytesChars payloadBytes)) now
  else .error .invalidSignature

/-- The `len(parts) != 2` and base64-decode steps of `parseToken`
(bot.go lines 1017–1023). -/
def parseTokenParts (parts : List (List Char)) (secret : List Nat)
    (now : Int) : Except TokenErr TokenClaims :=
  match parts with
  | [p0, p1] =>
      match decB64 p0 with
      | none => .error .badEncoding
      | some payloadBytes => parseTokenPayload payloadBytes p1 secret now
  | _ => .error .invalidToken

/-- `parseToken` (bot.go lines 1016–1046): split on `"."` into exactly two
segments; base64-decode the payload; verify the signature; split the
payload on `":"` into exactly three fields; parse id and expiry with
`strconv.ParseInt`; reject a past expiry; return the claims. -/
def parseToken (token : List Char) (secret : List Nat) (now : Int) :
    Except TokenErr TokenClaims :=
  parseTokenParts (splitOnChar '.' token) secret now

/-- Evaluation of `parseToken` along the accepting path. -/
theorem parseToken_run_ok {token : List Char} {secret : List Nat} {now : Int}
    {p0 p1 : List Char} {payloadBytes : List Nat} {i0 i1 i2 : List Char}
    {uid exp : Int}
    (h1 : splitOnChar '.' token = [p0, p1])
    (h2 : decB64 p0 = some payloadBytes)
    (h3 : verify secret (bytesChars payloadBytes) p1 = true)
    (h4 : splitOnChar ':' (bytesChars payloadBytes) = [i0, i1, i2])
    (h5 : parseInt i0 = some uid)
    (h6 : parseInt i2 = some exp)
    (h7 : ¬ now > exp) :
    parseToken token secret now = .ok ⟨uid, i1, exp⟩ := by
  unfold parseToken
  rw [h1]
  show (match decB64 p0 with
       | none => Except.error TokenErr.badEncoding
       | some payloadBytes => parseTokenPayload payloadBytes p1 secret now)
      = _
  rw [h2]
  show parseTokenPayload payloadBytes p1 secret now = _
  unfold parseTokenPayload
  rw [if_pos h3, h4]
  show parseTokenNums i0 i1 i2 now = _
  unfold parseTokenNums
  rw [h5]
  show (match parseInt i2 with
       | none => Except.error TokenErr.badNumber
       | some exp => parseTokenExp uid i1 exp now) = _
  rw [h6]
  show parseTokenExp uid i1 exp now = _
  unfold parseTokenExp
  rw [if_neg h7]

/-- Evaluation of `parseToken` along the expired path. -/
theorem parseToken_run_expired {token : List Char} {secret : List Nat}
    {now : Int} {p0 p1 : List Char} {payloadBytes : List Nat}
    {i0 i1 i2 : List Char} {uid exp : Int}
    (h1 : splitOnChar '.' token = [p0, p1])
    (h2 : decB64 p0 = some payloadBytes)
    (h3 : verify secret (bytesChars payloadBytes) p1 = true)
    (h4 : splitOnChar ':' (bytesChars payloadBytes) = [i0, i1, i2])
    (h5 : parseInt i0 = some uid)
    (h6 : parseInt i2 = some exp)
    (h7 : now > exp) :
    parseToken token secret now = .error .expired := by
  unfold parseToken
  rw [h1]
  show (match decB64 p0 with
       | none => Except.error TokenErr.badEncoding
       | some payloadBytes => parseTokenPayload payloadBytes p1 secret now)
      = _
  rw [h2]
  show parseTokenPayload payloadBytes p1 secret now = _
  unfold parseTokenPayload
  rw [if_pos h3, h4]
  show parseTokenNums i0 i1 i2 now = _
  unfold parseTokenNums
  rw [h5]
  show (match parseInt i2 with
       | none => Except.error TokenErr.badNumber
       | some exp => parseTokenExp uid i1 exp now) = _
  rw [h6]
  show parseTokenExp uid i1 exp now = _
  unfold parseTokenExp
  rw [if_pos h7]

/-- Evaluation of `parseToken` when signature verification fails. -/
theorem parseToken_run_badsig {token : List Char} {secret : List Nat}
    {now : Int} {p0 p1 : List Char} {payloadBytes : List Nat}
    (h1 : splitOnChar '.' token = [p0, p1])
    (h2 : decB64 p0 = some payloadBytes)
    (h3 : verify secret (bytesChars payloadBytes) p1 = false) :
    parseToken token secret now = .error .invalidSignature := by
  unfold parseToken
  rw [h1]
  show (match decB64 p0 with
       | none => Except.error TokenErr.badEncoding
       | some payloadBytes => parseTokenPayload payloadBytes p1 secret now)
      = _
  rw [h2]
  show parseTokenPayload payloadBytes p1 secret now = _
  unfold parseTokenPayload
  rw [if_neg (by simp [h3])]

/-- Evaluation of `parseToken` when the dot split yields three or more
segments. -/
theorem parseToken_run_threeparts {token : List Char} {secret : List Nat}
    {now : Int} {a b c : List Char} {rest : List (List Char)}
    (h1 : splitOnChar '.' token = a :: b :: c :: rest) :
    parseToken token secret now = .error .invalidToken := by
  unfold parseToken
  rw [h1]
  rfl

/-- The three storable roles are colon-free ASCII strings. -/
theorem role_chars {r : String} (h : r ∈ allowedRoles) :
    ':' ∉ r.data ∧ ∀ c ∈ r.data, c.toNat < 256 := by
  have h2 : r = "admin" ∨ r = "user" ∨ r = "blocked" := by
    simpa [allowedRoles] using h
  rcases h2 with rfl | rfl | rfl <;> exact ⟨by decide, by decide⟩

/-- A payload built from an ASCII role consists of bytes below 256. -/
theorem payload_ascii {role : List Char} (hr : ∀ c ∈ role, c.toNat < 256)
    (uid exp : Int) : ∀ b ∈ strBytes (payloadChars uid role exp), b < 256 := by
  intro b hb
  rcases List.mem_map.1 hb with ⟨c, hc, rfl⟩
  unfold payloadChars at hc
  rcases List.mem_append.1 hc with hc | hc
  · rcases intToStr_chars uid c hc with h | h <;> omega
  · rcases List.mem_cons.1 hc with rfl | hc
    · decide
    · rcases List.mem_append.1 hc with hc | hc
      · exact hr c hc
      · rcases List.mem_cons.1 hc with rfl | hc
        · decide
        · rcases intToStr_chars exp c hc with h | h <;> omega

/-- Splitting the payload on `':'` recovers its three fields when the role
contains no colon. -/
theorem payload_split {role : List Char} (hr : ':' ∉ role) (uid exp : Int) :
    splitOnChar ':' (payloadChars uid role exp) =
      [intToStr uid, role, intToStr exp] := by
  unfold payloadChars
  rw [splitOnChar_append (colon_not_mem_intToStr uid),
      splitOnChar_append hr,
      splitOnChar_nosep (colon_not_mem_intToStr exp)]

/-- `string(bytes)` inverts `[]byte(string)`. -/
theorem bytesChars_strBytes (l : List Char) : bytesChars (strBytes l) = l := by
  unfold bytesChars strBytes
  rw [List.map_map]
  exact List.map_id'' (fun c => Char.ofNat_toNat c) l

/-- Signatures are base64 output, hence dot-free. -/
theorem dot_not_mem_sign (secret : List Nat) (p : List Char) :
    '.' ∉ sign secret p :=
  encB64_no_dot _

/-- A fresh token splits on `'.'` into its payload and signature segments. -/
theorem createToken_split (u : User) (secret : List Nat) (now : Int) :
    splitOnChar '.' (createToken u secret now) =
      [encB64 (strBytes (payloadChars u.id u.role.data (now + authExpiry))),
       sign secret (payloadChars u.id u.role.data (now + authExpiry))] := by
  unfold createToken
  rw [splitOnChar_append (encB64_no_dot _),
      splitOnChar_nosep (dot_not_mem_sign secret _)]

/-- Overwriting position `i` with a character different from the one
stored there changes the list. -/
theorem set_ne_of_ne {l : List Char} {i : Nat} {c : Char}
    (h : i < l.length) (hc : c ≠ l.get ⟨i, h⟩) : l.set i c ≠ l := by
  intro he
  have hlen : i < (l.set i c).length := by rw [List.length_set]; exact h
  have e1 : (l.set i c)[i]? = some c := by
    rw [List.getElem?_eq_getElem hlen]
    exact congrArg some (List.getElem_set_self _)
  rw [he, List.getElem?_eq_getElem h] at e1
  apply hc
  rw [List.get_eq_getElem]
  exact (Option.some.inj e1).symm

/-- C2.  A token issued by `createToken` is accepted by `parseToken` under
the same secret at any instant strictly before the embedded expiry
(`issue + 30 days`) and yields exactly the issuing user's id, role and
expiry; once the clock passes the expiry the same token is rejected as
expired; and altering any single character of the signature segment makes
`parseToken` reject the token. -/
theorem token_service_contract (u : User) (secret : List Nat)
    (tIssue tCheck : Int) (hrole : u.role ∈ allowedRoles) :
    (tCheck < tIssue + authExpiry →
      parseToken (createToken u secret tIssue) secret tCheck =
        .ok ⟨u.id, u.role.data, tIssue + authExpiry⟩) ∧
    (tCheck > tIssue + authExpiry →
      parseToken (createToken u secret tIssue) secret tCheck =
        .error .expired) ∧
    (∀ (i : Nat) (c : Char)
      (h : i < (sign secret
        (payloadChars u.id u.role.data (tIssue + authExpiry))).length),
      c ≠ (sign secret
        (payloadChars u.id u.role.data (tIssue + authExpiry))).get ⟨i, h⟩ →
      ∃ e, parseToken
        (encB64 (strBytes (payloadChars u.id u.role.data
            (tIssue + authExpiry))) ++
          '.' :: (sign secret (payloadChars u.id u.role.data
            (tIssue + authExpiry))).set i c)
        secret tCheck = .error e) := by
  obtain ⟨hcolon, hascii⟩ := role_chars hrole
  refine ⟨?_, ?_, ?_⟩
  · intro hlt
    exact parseToken_run_ok (createToken_split u secret tIssue)
      (decB64_encB64 _ (payload_ascii hascii _ _))
      (by rw [bytesChars_strBytes]; simp [verify])
      (by rw [bytesChars_strBytes]; exact payload_split hcolon _ _)
      (parseInt_intToStr _) (parseInt_intToStr _) (by omega)
  · intro hgt
    exact parseToken_run_expired (createToken_split u secret tIssue)
      (decB64_encB64 _ (payload_ascii hascii _ _))
      (by rw [bytesChars_strBytes]; simp [verify])
      (by rw [bytesChars_strBytes]; exact payload_split hcolon _ _)
      (parseInt_intToStr _) (parseInt_intToStr _) hgt
  · intro i c h hc
    by_cases hdot : '.' ∈ (sign secret
        (payloadChars u.id u.role.data (tIssue + authExpiry))).set i c
    · have hlen := splitOnChar_mem_length hdot
      cases hsp : splitOnChar '.' ((sign secret
          (payloadChars u.id u.role.data (tIssue + authExpiry))).set i c) with
      | nil => exact absurd hsp (splitOnChar_ne_nil _ _)
      | cons x xs =>
        cases xs with
        | nil =>
            rw [hsp] at hlen
            simp at hlen
        | cons y rest =>
            exact ⟨.invalidToken, parseToken_run_threeparts
              (by rw [splitOnChar_append (encB64_no_dot _), hsp])⟩
    · have hne : (sign secret
          (payloadChars u.id u.role.data (tIssue + authExpiry))).set i c ≠
          sign secret (payloadChars u.id u.role.data (tIssue + authExpiry)) :=
        set_ne_of_ne h hc
      refine ⟨.invalidSignature, parseToken_run_badsig
        (by rw [splitOnChar_append (encB64_no_dot _), splitOnChar_nosep hdot])
        (decB64_encB64 _ (payload_ascii hascii _ _)) ?_⟩
      rw [bytesChars_strBytes]
      unfold verify
      exact beq_eq_false_iff_ne.mpr (Ne.symm hne)

set_option maxHeartbeats 1000000 in
/-- Witness for C2 at user 1 with role `admin`, secret `"key"`, issue time 0:
acceptance at time 5, rejection at `authExpiry + 1`, and rejection after the
first signature character is overwritten with `'.'`. -/
theorem token_service_contract_witness :
    parseToken (createToken ⟨1, "a@x", "h", "admin", 0⟩ [107, 101, 121] 0)
        [107, 101, 121] 5 = .ok ⟨1, "admin".data, 0 + authExpiry⟩ ∧
    parseToken (createToken ⟨1, "a@x", "h", "admin", 0⟩ [107, 101, 121] 0)
        [107, 101, 121] (authExpiry + 1) = .error .expired ∧
    (∃ e, parseToken
        (encB64 (strBytes (payloadChars 1 "admin".data (0 + authExpiry))) ++
          '.' :: (sign [107, 101, 121]
            (payloadChars 1 "admin".data (0 + authExpiry))).set 0 '.')
        [107, 101, 121] 5 = .error e) :=
  ⟨(token_service_contract ⟨1, "a@x", "h", "admin", 0⟩ [107, 101, 121] 0 5
      (by decide)).1 (by decide),
   (token_service_contract ⟨1, "a@x", "h", "admin", 0⟩ [107, 101, 121] 0
      (authExpiry + 1) (by decide)).2.1 (by omega),
   (token_service_contract ⟨1, "a@x", "h", "admin", 0⟩ [107, 101, 121] 0 5
      (by decide)).2.2 0 '.' (by decide) (by decide)⟩

/-! ## C8: the encoding of issued tokens -/

/-- Modelled from the spec's words (refinement target for C8): the token as
the spec describes it, with both segments base64url-encoded
(`-`/`_` alphabet), payload `userId:role:expiry`, expiry 30 days after
issuance. -/
def specTokenURL (u : User) (secret : List Nat) (now : Int) : List Char :=
  encB64URL (strBytes (payloadChars u.id u.role.data (now + authExpiry))) ++
    '.' :: encB64URL (hmacSHA256 secret
      (strBytes (payloadChars u.id u.role.data (now + authExpiry))))

/-- The spec's token description with the encoding corrected to Go's
`base64.RawStdEncoding` (`+`/`/` alphabet, no padding), as the code uses. -/
def specTokenStd (u : User) (secret : List Nat) (now : Int) : List Char :=
  encB64 (strBytes (payloadChars u.id u.role.data (now + authExpiry))) ++
    '.' :: encB64 (hmacSHA256 secret
      (strBytes (payloadChars u.id u.role.data (now + authExpiry))))

/-- C8 counterexample: for user 1 with role `admin`, secret `"key"` and
issue time 0 the HMAC signature contains the sextet 62, so the issued token
(standard alphabet, `+`) differs from the base64url token the spec
describes (`-`). -/
theorem createToken_url_counterexample :
    createToken ⟨1, "a@x", "h", "admin", 0⟩ [107, 101, 121] 0 ≠
      specTokenURL ⟨1, "a@x", "h", "admin", 0⟩ [107, 101, 121] 0 := by decide

/-- C8 (amended: RawStdEncoding, not base64url).  Every issued token is the
base64 (standard alphabet, unpadded) encoding of `userId:role:expiry` —
expiry exactly 30 days after issuance — joined by `'.'` with the base64
(standard alphabet, unpadded) encoding of the HMAC-SHA256 of that payload
under the signing secret. -/
theorem createToken_structure (u : User) (secret : List Nat) (now : Int) :
    createToken u secret now = specTokenStd u secret now := rfl

/-! ## C6: authentication uses the live user record -/

/-- The distinct failure modes of `authenticate` (bot.go lines 984–1001):
no `auth` cookie, a `parseToken` failure, a failed user lookup, or a live
role of `blocked`. -/
inductive AuthErr where
  | noCookie
  | tokenError (e : TokenErr)
  | userLookup
  | blocked
  deriving Repr, DecidableEq

/-- `authenticate` (bot.go lines 984–1001): read the `auth` cookie, parse
and verify the token, re-fetch the live user row by the embedded id, and
reject if the live role is `blocked`. -/
def authenticate (db : DB) (secret : List Nat) (now : Int)
    (cookie : Option (List Char)) : Except AuthErr User :=
  match cookie with
  | none => .error .noCookie
  | some tok =>
      match parseToken tok secret now with
      | .error e => .error (.tokenError e)
      | .ok claims =>
          match findUser db claims.userId with
          | none => .error .userLookup
          | some u =>
              if u.role == "blocked" then .error .blocked else .ok u

/-- `requireUser` (bot.go lines 332–359): any `authenticate` error becomes
`401 Unauthorized`; a blocked role would become `403 Forbidden` (unreachable,
kept from the source); otherwise the request proceeds with the auth context
built from the live user. -/
def requireUserGate (db : DB) (secret : List Nat) (now : Int)
    (cookie : Option (List Char)) : HResp AuthUser :=
  match authenticate db secret now cookie with
  | .error _ => .unauthorized
  | .ok u => if u.role == "blocked" then .forbidden else .ok (buildAuth db u)

/-- C6.  `authenticate` succeeds exactly when the cookie holds a token that
parses and verifies, the embedded user id re-fetches a live user row, and
that row's live role is not `blocked` — the identity produced is the live
record, not the token's embedded role; every failure, including a live
`blocked` role under an unexpired valid token, makes `requireUser` answer
with the same unauthenticated outcome. -/
theorem authenticate_live_identity (db : DB) (secret : List Nat) (now : Int)
    (cookie : Option (List Char)) :
    (∀ u, authenticate db secret now cookie = .ok u ↔
      ∃ tok claims, cookie = some tok ∧
        parseToken tok secret now = .ok claims ∧
        findUser db claims.userId = some u ∧ u.role ≠ "blocked") ∧
    (∀ e, authenticate db secret now cookie = .error e →
      requireUserGate db secret now cookie = .unauthorized) ∧
    (∀ u tok claims, cookie = some tok →
      parseToken tok secret now = .ok claims →
      findUser db claims.userId = some u → u.role = "blocked" →
      requireUserGate db secret now cookie = .unauthorized) := by
  refine ⟨?_, ?_, ?_⟩
  · intro u
    constructor
    · intro h
      cases cookie with
      | none => simp [authenticate] at h
      | some tok =>
        cases hp : parseToken tok secret now with
        | error e => simp [authenticate, hp] at h
        | ok claims =>
          cases hf : findUser db claims.userId with
          | none => simp [authenticate, hp, hf] at h
          | some v =>
            by_cases hb : v.role = "blocked"
            · simp [authenticate, hp, hf, hb] at h
            · simp [authenticate, hp, hf, hb] at h
              subst h
              exact ⟨tok, claims, rfl, hp, hf, hb⟩
    · rintro ⟨tok, claims, rfl, hp, hf, hb⟩
      simp [authenticate, hp, hf, hb]
  · intro e he
    unfold requireUserGate
    rw [he]
  · intro u tok claims hc hp hf hb
    subst hc
    unfold requireUserGate
    simp [authenticate, hp, hf, hb]

set_option maxHeartbeats 1000000 in
/-- Witness for C6: a concrete valid token for live user 7 authenticates to
that user's live record, and a missing cookie is rejected as unauthorized. -/
theorem authenticate_live_identity_witness :
    (∃ tok claims,
      (some (createToken ⟨7, "b@x", "h", "user", 0⟩ [1, 2, 3] 0) :
          Option (List Char)) = some tok ∧
      parseToken tok [1, 2, 3] 5 = .ok claims ∧
      findUser ⟨[], [], [⟨7, "b@x", "h", "user", 0⟩], [], 1, 1, 8⟩
          claims.userId = some ⟨7, "b@x", "h", "user", 0⟩ ∧
      (⟨7, "b@x", "h", "user", 0⟩ : User).role ≠ "blocked") ∧
    requireUserGate ⟨[], [], [⟨7, "b@x", "h", "user", 0⟩], [], 1, 1, 8⟩
        [1, 2, 3] 5 none = .unauthorized :=
  ⟨((authenticate_live_identity ⟨[], [], [⟨7, "b@x", "h", "user", 0⟩], [], 1, 1, 8⟩
        [1, 2, 3] 5
        (some (createToken ⟨7, "b@x", "h", "user", 0⟩ [1, 2, 3] 0))).1
      ⟨7, "b@x", "h", "user", 0⟩).mp (by decide),
   (authenticate_live_identity ⟨[], [], [⟨7, "b@x", "h", "user", 0⟩], [], 1, 1, 8⟩
        [1, 2, 3] 5 none).2.1 .noCookie rfl⟩

end LiteTask
